import Mathlib

/-!
Shallow embedding of the ordinal/inscription indexer core
(`src/index.rs`, `src/index/updater/inscription_updater.rs`)
and proofs of the specification claims about it.

Machine integers (u64, u32) are modelled as `Nat`; the arithmetic in the
embedded code never relies on wrap-around (offsets, values and rewards are
sums and differences of satoshi amounts bounded far below 2^64), and the
Rust source would panic rather than wrap on the subtractions it performs.
redb tables are modelled as association lists; the redb API iterates keys
in ascending order, which is made explicit at each use site that depends
on iteration order.
-/

/-- Transaction id, abstracted to a natural number (32-byte hash in the source). -/
abbrev Txid := Nat

/-- `bitcoin::OutPoint`: a transaction id plus output index. -/
structure OutPoint where
  txid : Txid
  vout : Nat
deriving DecidableEq, Repr

/-- `OutPoint::null()`: all-zero txid and `vout = u32::MAX`. -/
def OutPoint.null : OutPoint := ⟨0, 4294967295⟩

/-- `OutPoint::is_null` as used by `index_transaction_inscriptions`. -/
def OutPoint.is_null (o : OutPoint) : Bool := o = OutPoint.null

/-- `SatPoint`: an outpoint plus a sat offset within it. -/
structure SatPoint where
  outpoint : OutPoint
  offset : Nat
deriving DecidableEq, Repr

/-- Inscription id: the txid that created the inscription. -/
abbrev InscriptionId := Txid

/-- `InscriptionEntry` as stored in `INSCRIPTION_ID_TO_INSCRIPTION_ENTRY`. -/
structure InscriptionEntry where
  fee : Nat
  height : Nat
  number : Nat
  sat : Option Nat
  timestamp : Nat
deriving DecidableEq, Repr

/-- `bitcoin::TxOut`, reduced to the value field (the script only feeds the
optional mysql mirror's address string, which does not touch the index). -/
structure TxOut where
  value : Nat
deriving DecidableEq, Repr

/-- `bitcoin::TxIn`. `witnessEnvelope` records whether this input's witness
carries a parseable inscription envelope (the envelope bytes themselves are
irrelevant to the index tables). -/
structure TxIn where
  previous_output : OutPoint
  witnessEnvelope : Bool
deriving DecidableEq, Repr

/-- `bitcoin::Transaction`, reduced to inputs and outputs. -/
structure Transaction where
  input : List TxIn
  output : List TxOut
deriving DecidableEq, Repr

/-- `const SCHEMA_VERSION: u64 = 3` (src/index.rs). -/
def SCHEMA_VERSION : Nat := 3

/-- One coin in satoshis. -/
def COIN_VALUE : Nat := 100000000

/-- Blocks between subsidy halvings. -/
def SUBSIDY_HALVING_INTERVAL : Nat := 210000

/-- Modelled from the spec: `Height::subsidy` is not under src/ (only its
callers are); the spec fixes 50·COIN at genesis, "computed from the halving
schedule". -/
def Height.subsidy (height : Nat) : Nat :=
  50 * COIN_VALUE / 2 ^ (height / SUBSIDY_HALVING_INTERVAL)

/-- Modelled from the spec: first ordinal of each halving epoch, from the
cumulative subsidy schedule ("a globally unique serial number assigned to
each satoshi at the moment its block is mined"). -/
def Epoch.startingSat : Nat → Nat
  | 0 => 0
  | e + 1 => Epoch.startingSat e + SUBSIDY_HALVING_INTERVAL * (50 * COIN_VALUE / 2 ^ e)

/-- Modelled from the spec: the halving epoch a sat was mined in (subsidies
vanish after epoch 33, so 64 epochs cover the whole supply). -/
def Sat.epochOf (sat : Nat) : Nat :=
  ((List.range 64).filter (fun e => decide (Epoch.startingSat (e + 1) ≤ sat))).length

/-- Modelled from the spec: `Sat::height`, the height of the block whose
coinbase minted this sat, inverted from the cumulative subsidy schedule. -/
def Sat.height (sat : Nat) : Nat :=
  let e := Sat.epochOf sat
  e * SUBSIDY_HALVING_INTERVAL + (sat - Epoch.startingSat e) / (50 * COIN_VALUE / 2 ^ e)

/-- Modelled from the spec: `Inscription::from_transaction` is not under
src/; per the spec it parses an inscription envelope from the first input's
witness. The payload is abstracted to `Unit`. -/
def Inscription.from_transaction (tx : Transaction) : Option Unit :=
  match tx.input.head? with
  | some txin => if txin.witnessEnvelope then some () else none
  | none => none

/-! ### Association-list model of redb tables -/

/-- A redb table: an association list of key/value rows.  All tables in the
index are built by `insert`/`removeKey` starting from empty, so their keys
stay duplicate-free; where a proof needs that fact it is an explicit
hypothesis (`KeysNodup`). -/
structure Tbl (α β : Type) : Type where
  rows : List (α × β)
deriving DecidableEq, Repr

namespace Tbl

variable {α β : Type} [DecidableEq α]

/-- `table.get(&k)`. -/
def get (t : Tbl α β) (k : α) : Option β :=
  (List.find? (fun p => decide (p.1 = k)) t.rows).map Prod.snd

/-- The table with every row keyed `k` removed (`table.remove(&k)` discards
the returned previous value except where the caller inspects it). -/
def removeKey (t : Tbl α β) (k : α) : Tbl α β :=
  ⟨List.filter (fun p => decide (p.1 ≠ k)) t.rows⟩

/-- `table.insert(&k, &v)`: redb overwrites any previous row with this key. -/
def insert (t : Tbl α β) (k : α) (v : β) : Tbl α β :=
  ⟨(k, v) :: (t.removeKey k).rows⟩

/-- The list of keys. -/
def keys (t : Tbl α β) : List α := List.map Prod.fst t.rows

/-- Keys are duplicate-free: holds for every table reachable from an empty
table by `insert`/`removeKey`. -/
def KeysNodup (t : Tbl α β) : Prop := t.keys.Nodup

/-- Cardinality of the table. -/
def card (t : Tbl α β) : Nat := t.rows.length

theorem get_eq_none_iff {t : Tbl α β} {k : α} :
    t.get k = none ↔ ∀ v, (k, v) ∉ t.rows := by
  unfold get
  rw [Option.map_eq_none', List.find?_eq_none]
  constructor
  · intro h v hv
    have := h (k, v) hv
    simp at this
  · rintro h ⟨a, b⟩ hp
    simp only [decide_eq_true_eq]
    rintro rfl
    exact h b hp

theorem mem_of_get_eq_some {t : Tbl α β} {k : α} {v : β}
    (h : t.get k = some v) : (k, v) ∈ t.rows := by
  unfold get at h
  rw [Option.map_eq_some'] at h
  obtain ⟨⟨a, b⟩, hfind, hv⟩ := h
  have hmem := List.mem_of_find?_eq_some hfind
  have hkey := List.find?_some hfind
  simp only [decide_eq_true_eq] at hkey
  cases hv
  cases hkey
  exact hmem

theorem get_cons_self (a : α) (b : β) (rest : List (α × β)) :
    Tbl.get ⟨(a, b) :: rest⟩ a = some b := by
  simp [get, List.find?]

theorem get_cons_ne (a : α) (b : β) (rest : List (α × β)) {k : α} (h : a ≠ k) :
    Tbl.get ⟨(a, b) :: rest⟩ k = Tbl.get ⟨rest⟩ k := by
  simp [get, List.find?, h]

theorem get_eq_some_of_mem {t : Tbl α β} (hnd : t.KeysNodup) {k : α} {v : β}
    (h : (k, v) ∈ t.rows) : t.get k = some v := by
  obtain ⟨l⟩ := t
  induction l with
  | nil => simp at h
  | cons p rest ih =>
    obtain ⟨a, b⟩ := p
    simp only [KeysNodup, keys, List.map_cons, List.nodup_cons] at hnd
    rcases List.mem_cons.mp h with h1 | h1
    · cases h1
      exact get_cons_self k v rest
    · by_cases hk : a = k
      · subst hk
        exact absurd (List.mem_map.mpr ⟨(a, v), h1, rfl⟩) hnd.1
      · rw [get_cons_ne a b rest hk]
        exact ih hnd.2 h1

theorem get_mem_iff {t : Tbl α β} (hnd : t.KeysNodup) {k : α} {v : β} :
    t.get k = some v ↔ (k, v) ∈ t.rows :=
  ⟨mem_of_get_eq_some, get_eq_some_of_mem hnd⟩

theorem removeKey_cons_self (a : α) (b : β) (rest : List (α × β))
    {k : α} (h : a = k) :
    Tbl.removeKey ⟨(a, b) :: rest⟩ k = Tbl.removeKey ⟨rest⟩ k := by
  simp [removeKey, List.filter, h]

theorem removeKey_cons_ne (a : α) (b : β) (rest : List (α × β))
    {k : α} (h : a ≠ k) :
    Tbl.removeKey ⟨(a, b) :: rest⟩ k = ⟨(a, b) :: (Tbl.removeKey ⟨rest⟩ k).rows⟩ := by
  simp [removeKey, List.filter, h]

theorem get_removeKey_self (t : Tbl α β) (k : α) :
    (t.removeKey k).get k = none := by
  rw [get_eq_none_iff]
  intro v hv
  have := List.of_mem_filter (p := fun (q : α × β) => decide (q.1 ≠ k)) hv
  simp at this

theorem get_removeKey_ne (t : Tbl α β) {k k' : α} (h : k' ≠ k) :
    (t.removeKey k).get k' = t.get k' := by
  obtain ⟨l⟩ := t
  induction l with
  | nil => rfl
  | cons p rest ih =>
    obtain ⟨a, b⟩ := p
    by_cases hak : a = k
    · rw [removeKey_cons_self a b rest hak, ih,
        get_cons_ne a b rest (fun hh => h (hak ▸ hh ▸ rfl))]
    · rw [removeKey_cons_ne a b rest hak]
      by_cases hak' : a = k'
      · subst hak'
        rw [get_cons_self, get_cons_self]
      · rw [get_cons_ne a b _ hak', get_cons_ne a b rest hak', ih]

theorem get_insert_self (t : Tbl α β) (k : α) (v : β) :
    (t.insert k v).get k = some v := by
  unfold insert
  exact get_cons_self k v (t.removeKey k).rows

theorem get_insert_ne (t : Tbl α β) {k k' : α} (v : β) (h : k' ≠ k) :
    (t.insert k v).get k' = t.get k' := by
  unfold insert
  rw [get_cons_ne k v _ (fun hh => h hh.symm)]
  exact get_removeKey_ne t h

theorem keysNodup_removeKey (t : Tbl α β) (k : α) (h : t.KeysNodup) :
    (t.removeKey k).KeysNodup := by
  obtain ⟨l⟩ := t
  induction l with
  | nil => exact h
  | cons p rest ih =>
    obtain ⟨a, b⟩ := p
    simp only [KeysNodup, keys, List.map_cons, List.nodup_cons] at h
    by_cases hak : a = k
    · rw [removeKey_cons_self a b rest hak]
      exact ih h.2
    · rw [removeKey_cons_ne a b rest hak]
      simp only [KeysNodup, keys, List.map_cons, List.nodup_cons]
      constructor
      · intro hmem
        rcases List.mem_map.mp hmem with ⟨q, hq, hqa⟩
        exact h.1 (List.mem_map.mpr ⟨q, List.mem_of_mem_filter hq, hqa⟩)
      · exact ih h.2

theorem keysNodup_insert (t : Tbl α β) (k : α) (v : β) (h : t.KeysNodup) :
    (t.insert k v).KeysNodup := by
  unfold insert
  simp only [KeysNodup, keys, List.map_cons, List.nodup_cons]
  constructor
  · intro hmem
    rcases List.mem_map.mp hmem with ⟨q, hq, hqk⟩
    have := List.of_mem_filter (p := fun (q : α × β) => decide (q.1 ≠ k)) hq
    simp only [decide_eq_true_eq] at this
    exact this hqk
  · exact keysNodup_removeKey t k h

theorem mem_removeKey {t : Tbl α β} {k : α} {p : α × β}
    (h : p ∈ (t.removeKey k).rows) : p ∈ t.rows ∧ p.1 ≠ k := by
  refine ⟨List.mem_of_mem_filter h, ?_⟩
  have := List.of_mem_filter (p := fun (q : α × β) => decide (q.1 ≠ k)) h
  simpa using this

theorem mem_removeKey_of_mem {t : Tbl α β} {k : α} {p : α × β}
    (h : p ∈ t.rows) (hne : p.1 ≠ k) : p ∈ (t.removeKey k).rows :=
  List.mem_filter.mpr ⟨h, by simpa using hne⟩

end Tbl

/-! ### Stable sort by a natural-number key

`Vec::sort_by_key` is a stable sort; redb range scans also return rows in
ascending key order.  Both are modelled by a stable insertion sort. -/

def insertByKey {γ : Type} (key : γ → Nat) (x : γ) : List γ → List γ
  | [] => [x]
  | y :: rest => if key x ≤ key y then x :: y :: rest else y :: insertByKey key x rest

def sortByKey {γ : Type} (key : γ → Nat) : List γ → List γ
  | [] => []
  | x :: rest => insertByKey key x (sortByKey key rest)

/-! ### The inscription updater (src/index/updater/inscription_updater.rs) -/

/-- `Origin`: how a flotsam entered the current transaction. -/
inductive Origin where
  | New (fee : Nat)
  | Old (old_satpoint : SatPoint)
deriving DecidableEq, Repr

/-- `Flotsam`: an inscription floating through a transaction at a sat offset
from input start. -/
structure Flotsam where
  inscription_id : InscriptionId
  offset : Nat
  origin : Origin
deriving DecidableEq, Repr

/-- The mutable state of `InscriptionUpdater`.  The redb table references
become owned tables; the tokio `Receiver<u64>` becomes the list of values
the fetcher will deliver, in order. -/
structure InscriptionUpdater where
  flotsam : List Flotsam
  height : Nat
  id_to_satpoint : Tbl InscriptionId SatPoint
  value_receiver : List Nat
  id_to_entry : Tbl InscriptionId InscriptionEntry
  lost_sats : Nat
  next_number : Nat
  number_to_id : Tbl Nat InscriptionId
  outpoint_to_value : Tbl OutPoint Nat
  reward : Nat
  sat_to_inscription_id : Tbl Nat InscriptionId
  satpoint_to_id : Tbl SatPoint InscriptionId
  timestamp : Nat
  value_cache : Tbl OutPoint Nat
deriving DecidableEq, Repr

/-- `InscriptionUpdater::new`: `next_number` is re-derived from the number
table (redb iterates keys ascending, so `iter().rev().next()` sees the
maximum key) and `reward` starts at this height's subsidy. -/
def InscriptionUpdater.new (height : Nat)
    (id_to_satpoint : Tbl InscriptionId SatPoint) (value_receiver : List Nat)
    (id_to_entry : Tbl InscriptionId InscriptionEntry) (lost_sats : Nat)
    (number_to_id : Tbl Nat InscriptionId) (outpoint_to_value : Tbl OutPoint Nat)
    (sat_to_inscription_id : Tbl Nat InscriptionId)
    (satpoint_to_id : Tbl SatPoint InscriptionId) (timestamp : Nat)
    (value_cache : Tbl OutPoint Nat) : InscriptionUpdater :=
  let next_number := match number_to_id.keys.max? with
    | some m => m + 1
    | none => 0
  { flotsam := [], height, id_to_satpoint, value_receiver, id_to_entry, lost_sats,
    next_number, number_to_id, outpoint_to_value, reward := Height.subsidy height,
    sat_to_inscription_id, satpoint_to_id, timestamp, value_cache }

/-- `Index::inscriptions_on_output`: range scan of `SATPOINT_TO_INSCRIPTION_ID`
over `[(outpoint, 0), (outpoint, u64::MAX)]`; redb returns the rows in
ascending key order, i.e. ascending offset within this outpoint. -/
def Index.inscriptions_on_output (satpoint_to_id : Tbl SatPoint InscriptionId)
    (outpoint : OutPoint) : List (SatPoint × InscriptionId) :=
  sortByKey (fun p => p.1.offset)
    (satpoint_to_id.rows.filter (fun p => decide (p.1.outpoint = outpoint)))

/-- The scan over `input_sat_ranges` inside `update_inscription_location`
(`Origin::New` branch): walk the input FIFO to the range containing the
flotsam's offset and return the sat there. -/
def satAtOffset : List (Nat × Nat) → Nat → Nat → Option Nat
  | [], _, _ => none
  | (s, e) :: rest, offset, target =>
    if offset + (e - s) > target then some (s + target - offset)
    else satAtOffset rest (offset + (e - s)) target

/-- `InscriptionUpdater::update_inscription_location`. -/
def InscriptionUpdater.update_inscription_location (u : InscriptionUpdater)
    (input_sat_ranges : Option (List (Nat × Nat))) (fl : Flotsam)
    (new_satpoint : SatPoint) : InscriptionUpdater :=
  let inscription_id := fl.inscription_id
  let u := match fl.origin with
    | Origin.Old old_satpoint =>
        { u with satpoint_to_id := u.satpoint_to_id.removeKey old_satpoint }
    | Origin.New fee =>
        let u := { u with
          number_to_id := u.number_to_id.insert u.next_number inscription_id }
        let sat : Option Nat := match input_sat_ranges with
          | some ranges => satAtOffset ranges 0 fl.offset
          | none => none
        let u := match sat with
          | some n => { u with
              sat_to_inscription_id := u.sat_to_inscription_id.insert n inscription_id }
          | none => u
        let u := { u with id_to_entry := (u.id_to_entry.insert inscription_id
            ⟨fee, u.height, u.next_number, sat, u.timestamp⟩) }
        { u with next_number := u.next_number + 1 }
  { u with satpoint_to_id := u.satpoint_to_id.insert new_satpoint inscription_id,
           id_to_satpoint := u.id_to_satpoint.insert inscription_id new_satpoint }

/-- The first loop of `index_transaction_inscriptions` (over `tx.input`):
accumulate `input_value`, emit `Origin::Old` flotsam for inscriptions on
spent outpoints, and resolve each input's value from the value cache, the
`OUTPOINT_TO_VALUE` table, or the fetcher's value channel (failing when the
channel is exhausted). -/
def InscriptionUpdater.inputLoop :
    InscriptionUpdater → List TxIn → Nat → List Flotsam →
    Option (Nat × List Flotsam × InscriptionUpdater)
  | u, [], input_value, fls => some (input_value, fls, u)
  | u, txin :: rest, input_value, fls =>
    if txin.previous_output.is_null then
      InscriptionUpdater.inputLoop u rest (input_value + Height.subsidy u.height) fls
    else
      let fls := fls ++
        (Index.inscriptions_on_output u.satpoint_to_id txin.previous_output).map
          (fun q => ({ offset := input_value + q.1.offset, inscription_id := q.2,
                       origin := Origin.Old q.1 } : Flotsam))
      match u.value_cache.get txin.previous_output with
      | some v =>
          InscriptionUpdater.inputLoop
            { u with value_cache := u.value_cache.removeKey txin.previous_output }
            rest (input_value + v) fls
      | none =>
        match u.outpoint_to_value.get txin.previous_output with
        | some v =>
            InscriptionUpdater.inputLoop
              { u with outpoint_to_value := u.outpoint_to_value.removeKey txin.previous_output }
              rest (input_value + v) fls
        | none =>
          match u.value_receiver with
          | [] => none
          | v :: vs =>
              InscriptionUpdater.inputLoop { u with value_receiver := vs }
                rest (input_value + v) fls

/-- The body of the `while let Some(flotsam) = inscriptions.peek()` loop of
`index_transaction_inscriptions`, applied to the peeled flotsam of one
output: move each flotsam to its new satpoint within the output and record
the move. -/
def InscriptionUpdater.peelLoop (txid : Txid) (vout : Nat)
    (input_sat_ranges : Option (List (Nat × Nat))) (output_value : Nat) :
    InscriptionUpdater → List Flotsam → List (InscriptionId × SatPoint) →
    InscriptionUpdater × List (InscriptionId × SatPoint)
  | u, [], moves => (u, moves)
  | u, f :: rest, moves =>
    let new_satpoint : SatPoint := ⟨⟨txid, vout⟩, f.offset - output_value⟩
    InscriptionUpdater.peelLoop txid vout input_sat_ranges output_value
      (u.update_inscription_location input_sat_ranges f new_satpoint)
      rest (moves ++ [(f.inscription_id, new_satpoint)])

/-- The second loop of `index_transaction_inscriptions` (over `tx.output`,
with the peekable sorted flotsam iterator): peel flotsam whose offset lies
before the end of the current output (`peek` stops at the first flotsam at
or past the end, i.e. a `takeWhile`/`dropWhile` split), move each via
`peelLoop`, and cache the output's value. -/
def InscriptionUpdater.outputLoop (txid : Txid)
    (input_sat_ranges : Option (List (Nat × Nat))) :
    InscriptionUpdater → List (Nat × TxOut) → Nat → List Flotsam →
    List (InscriptionId × SatPoint) →
    InscriptionUpdater × Nat × List Flotsam × List (InscriptionId × SatPoint)
  | u, [], output_value, fls, moves => (u, output_value, fls, moves)
  | u, (vout, tx_out) :: rest, output_value, fls, moves =>
    let endv := output_value + tx_out.value
    let peeled := fls.takeWhile (fun f => decide (f.offset < endv))
    let remaining := fls.dropWhile (fun f => decide (f.offset < endv))
    let moved := InscriptionUpdater.peelLoop txid vout input_sat_ranges output_value
      u peeled moves
    let u := { moved.1 with
      value_cache := moved.1.value_cache.insert ⟨txid, vout⟩ tx_out.value }
    InscriptionUpdater.outputLoop txid input_sat_ranges u rest endv remaining moved.2

/-- The `for flotsam in inscriptions` loop of the coinbase branch: each
flotsam left after all outputs is parked at the null outpoint at offset
`lost_sats + flotsam.offset - output_value` (the updater's `lost_sats`
field is not modified inside the loop; the caller advances the statistic by
the returned spill). -/
def InscriptionUpdater.lostLoop (input_sat_ranges : Option (List (Nat × Nat)))
    (output_value : Nat) :
    InscriptionUpdater → List Flotsam → InscriptionUpdater
  | u, [] => u
  | u, f :: rest =>
    InscriptionUpdater.lostLoop input_sat_ranges output_value
      (u.update_inscription_location input_sat_ranges f
        ⟨OutPoint.null, u.lost_sats + f.offset - output_value⟩) rest

/-- `InscriptionUpdater::index_transaction_inscriptions`.  Returns `none`
exactly where the Rust returns `Err` (the value channel closed early);
otherwise the returned `Nat` is the value the Rust function returns (the
coinbase spillover to be added to `lost_sats` by the caller, 0 for
non-coinbase transactions), paired with the mysql move list (addresses
dropped) and the updated state. -/
def InscriptionUpdater.index_transaction_inscriptions (u : InscriptionUpdater)
    (tx : Transaction) (txid : Txid)
    (input_sat_ranges : Option (List (Nat × Nat))) :
    Option (Nat × List (InscriptionId × SatPoint) × InscriptionUpdater) :=
  match u.inputLoop tx.input 0 [] with
  | none => none
  | some (input_value, inscriptions, u) =>
    let inscriptions :=
      if inscriptions.all (fun f => decide (f.offset ≠ 0))
          && (Inscription.from_transaction tx).isSome then
        inscriptions ++
          [⟨txid, 0, Origin.New (input_value - (tx.output.map TxOut.value).sum)⟩]
      else inscriptions
    let is_coinbase :=
      (tx.input.head?.map (fun txin => txin.previous_output.is_null)).getD false
    let pair :=
      if is_coinbase then (inscriptions ++ u.flotsam, { u with flotsam := [] })
      else (inscriptions, u)
    let inscriptions := sortByKey Flotsam.offset pair.1
    let u := pair.2
    let res :=
      InscriptionUpdater.outputLoop txid input_sat_ranges u tx.output.enum 0
        inscriptions []
    let u := res.1
    let output_value := res.2.1
    let leftover := res.2.2.1
    let moves := res.2.2.2
    if is_coinbase then
      let u := InscriptionUpdater.lostLoop input_sat_ranges output_value u leftover
      some (u.reward - output_value, moves, u)
    else
      let u := { u with flotsam := (u.flotsam ++ leftover.map
        (fun (f : Flotsam) => { f with offset := u.reward + f.offset - output_value })) }
      let u := { u with reward := u.reward + (input_value - output_value) }
      some (0, moves, u)

/-! ### Byte codec for sat ranges -/

/-- `chunks_exact(11)` over a stored byte blob: the complete 11-byte chunks,
any shorter remainder dropped.  Structural recursion on a fuel counter that
starts at the list length (each step consumes 11 > 0 elements, so the fuel
never runs out before the list does). -/
def chunksExactGo : Nat → List Nat → List (List Nat)
  | 0, _ => []
  | fuel + 1, l => if l.length < 11 then [] else l.take 11 :: chunksExactGo fuel (l.drop 11)

def chunksExact11 (l : List Nat) : List (List Nat) := chunksExactGo l.length l

/-- Modelled from the spec: the 11-byte `SatRange` packing lives in
src/index/entry.rs, which is not under src/; the spec fixes only that a
range `[start, end)` is "packed into 11 bytes (start is u64, length is a
variable-width small integer)" that must round-trip with the range reader.
Modelled as the 11 little-endian bytes of `start + (end - start) * 2^51`
(every ordinal fits in 51 bits, every range length in 33). -/
def SatRange.store (r : Nat × Nat) : List Nat :=
  (List.range 11).map (fun i => (r.1 + (r.2 - r.1) * 2 ^ 51) / 256 ^ i % 256)

/-- Modelled from the spec: inverse of `SatRange.store` (`SatRange::load`
in src/index/entry.rs, not under src/). -/
def SatRange.load (bytes : List Nat) : Nat × Nat :=
  let n := (bytes.enum.map (fun p => p.2 * 256 ^ p.1)).sum
  (n % 2 ^ 51, n % 2 ^ 51 + n / 2 ^ 51)

/-- `value.chunks_exact(11).map(SatRange::load)` as used by `find` and
`list`. -/
def decodeRanges (bytes : List Nat) : List (Nat × Nat) :=
  (chunksExact11 bytes).map SatRange.load

/-! ### The read API (src/index.rs) -/

/-- The slice of `Index` state the claims touch.  `hasSatIndex` records
whether the `OUTPOINT_TO_SAT_RANGES` table exists in the database file;
`activeChain` models the node RPC's view of which transactions are in the
active chain (`get_raw_transaction_info(..).in_active_chain`). -/
structure IndexState where
  hasSatIndex : Bool
  outpoint_to_sat_ranges : Tbl OutPoint (List Nat)
  sat_to_satpoint : Tbl Nat SatPoint
  block_count : Nat
  activeChain : List Txid
deriving DecidableEq, Repr

/-- `Index::has_sat_index`: whether opening `OUTPOINT_TO_SAT_RANGES`
succeeds rather than failing with `TableDoesNotExist`. -/
def Index.has_sat_index (idx : IndexState) : Bool := idx.hasSatIndex

/-- `Index::require_sat_index`. -/
def Index.require_sat_index (idx : IndexState) (feature : String) :
    Except String Unit :=
  if !(Index.has_sat_index idx) then
    Except.error (feature ++ " requires index created with `--index-sats` flag")
  else Except.ok ()

/-- Modelled from the spec: `Index::is_transaction_in_active_chain` asks the
node RPC for `get_raw_transaction_info(txid).in_active_chain`, defaulting to
false; the RPC client itself is an opaque block/tx source per the spec. -/
def Index.is_transaction_in_active_chain (idx : IndexState) (txid : Txid) : Bool :=
  idx.activeChain.contains txid

/-- The scan over one outpoint's decoded ranges inside `Index::find`,
accumulating the offset of each range within the outpoint. -/
def findInRanges (sat : Nat) : List (Nat × Nat) → Nat → Option Nat
  | [], _ => none
  | (s, e) :: rest, offset =>
    if s ≤ sat ∧ sat < e then some (offset + sat - s)
    else findInRanges sat rest (offset + (e - s))

/-- The row scan inside `Index::find`; redb iterates the rows of
`OUTPOINT_TO_SAT_RANGES` in ascending key order, which is the order of the
modelled row list. -/
def Index.findLoop (sat : Nat) : List (OutPoint × List Nat) → Option SatPoint
  | [] => none
  | (outpoint, bytes) :: rest =>
    match findInRanges sat (decodeRanges bytes) 0 with
    | some offset => some ⟨outpoint, offset⟩
    | none => Index.findLoop sat rest

/-- `Index::find`. -/
def Index.find (idx : IndexState) (sat : Nat) : Except String (Option SatPoint) :=
  match Index.require_sat_index idx "find" with
  | Except.error e => Except.error e
  | Except.ok _ =>
    if idx.block_count ≤ Sat.height sat then Except.ok none
    else Except.ok (Index.findLoop sat idx.outpoint_to_sat_ranges.rows)

/-- `Index::list_inner`: the raw byte value stored for this outpoint. -/
def Index.list_inner (idx : IndexState) (outpoint : OutPoint) : Option (List Nat) :=
  idx.outpoint_to_sat_ranges.get outpoint

/-- The source's `enum List` (renamed here to avoid shadowing `List`). -/
inductive IndexList where
  | Spent
  | Unspent (ranges : List (Nat × Nat))
deriving DecidableEq, Repr

/-- `Index::list`. -/
def Index.list (idx : IndexState) (outpoint : OutPoint) :
    Except String (Option IndexList) :=
  match Index.require_sat_index idx "list" with
  | Except.error e => Except.error e
  | Except.ok _ =>
    match Index.list_inner idx outpoint with
    | some sat_ranges => Except.ok (some (IndexList.Unspent (decodeRanges sat_ranges)))
    | none =>
      if Index.is_transaction_in_active_chain idx outpoint.txid then
        Except.ok (some IndexList.Spent)
      else
        Except.ok none

/-- `Index::rare_sat_satpoints`: collect `SAT_TO_SATPOINT` when the sat
index exists, `Ok(None)` otherwise. -/
def Index.rare_sat_satpoints (idx : IndexState) :
    Except String (Option (List (Nat × SatPoint))) :=
  if Index.has_sat_index idx then Except.ok (some idx.sat_to_satpoint.rows)
  else Except.ok none

/-- `Index::rare_sat_satpoint`. -/
def Index.rare_sat_satpoint (idx : IndexState) (sat : Nat) :
    Except String (Option SatPoint) :=
  if Index.has_sat_index idx then Except.ok (idx.sat_to_satpoint.get sat)
  else Except.ok none

/-- `Index::get_inscription_entry`: a snapshot read of the same
`INSCRIPTION_ID_TO_INSCRIPTION_ENTRY` table the updater writes. -/
def Index.get_inscription_entry (id_to_entry : Tbl InscriptionId InscriptionEntry)
    (inscription_id : InscriptionId) : Option InscriptionEntry :=
  id_to_entry.get inscription_id

/-- The schema gate in `Index::open`: the stored `STATISTIC_TO_COUNT`
value for `Statistic::Schema` (`unwrap_or(0)` when absent) compared with
the compiled `SCHEMA_VERSION`.  The strings mirror the two `bail!` format
strings, split so the claimed phrases are visible components. -/
def Index.openSchemaCheck (path : String) (stored : Option Nat) :
    Except String Unit :=
  let schema_version := stored.getD 0
  if schema_version < SCHEMA_VERSION then
    Except.error (("index at `" ++ path ++ "` appears to have been built with an ")
      ++ "older, incompatible"
      ++ " version of ord, consider deleting and rebuilding the index: "
      ++ ("index schema " ++ toString schema_version ++ ", ord schema "
            ++ toString SCHEMA_VERSION))
  else if schema_version > SCHEMA_VERSION then
    Except.error (("index at `" ++ path ++ "` appears to have been built with a ")
      ++ "newer, incompatible"
      ++ " version of ord, consider updating ord: "
      ++ ("index schema " ++ toString schema_version ++ ", ord schema "
            ++ toString SCHEMA_VERSION))
  else Except.ok ()

/-! ### The node RPC error mapping (src/index.rs: BitcoinCoreRpcResultExt) -/

/-- `bitcoincore_rpc::jsonrpc::error::Error`, reduced to the `Rpc` variant
the code matches on plus an opaque remainder. -/
inductive JsonRpcError where
  | rpc (code : Int) (message : String)
  | otherJson (desc : String)
deriving DecidableEq, Repr

/-- `bitcoincore_rpc::Error`, reduced to the `JsonRpc` variant the code
matches on plus an opaque remainder. -/
inductive RpcError where
  | jsonRpc (e : JsonRpcError)
  | otherRpc (desc : String)
deriving DecidableEq, Repr

/-- `str::ends_with`: the characters of `pat` are a suffix of those of `s`. -/
def strEndsWith (s pat : String) : Bool := pat.data.isSuffixOf s.data

/-- `BitcoinCoreRpcResultExt::into_option`, arm for arm: success wraps in
`Some`; an `Rpc` error with code -8 maps to `Ok(None)` whatever its
message; an `Rpc` error whose message ends with "not found" maps to
`Ok(None)` whatever its code; every other error propagates. -/
def into_option {α : Type} : Except RpcError α → Except RpcError (Option α)
  | Except.ok v => Except.ok (some v)
  | Except.error (RpcError.jsonRpc (JsonRpcError.rpc code message)) =>
    if code = -8 then Except.ok none
    else if strEndsWith message "not found" then Except.ok none
    else Except.error (RpcError.jsonRpc (JsonRpcError.rpc code message))
  | Except.error (RpcError.jsonRpc (JsonRpcError.otherJson d)) =>
    Except.error (RpcError.jsonRpc (JsonRpcError.otherJson d))
  | Except.error (RpcError.otherRpc d) => Except.error (RpcError.otherRpc d)

/-! ### Claim C8: the schema gate of `Index::open` -/

/-- C8: for an existing index file, `Index::open` treats a missing schema
statistic as 0 and compares it with the compiled `SCHEMA_VERSION`: strictly
less fails with a message containing the "older, incompatible" phrase and
`index schema {stored}, ord schema {compiled}`; strictly greater fails with
the "newer, incompatible" phrase and the same schema pair; equal succeeds. -/
theorem open_schema_gate (path : String) (stored : Option Nat) :
    (stored.getD 0 < SCHEMA_VERSION →
      ∃ m, Index.openSchemaCheck path stored = Except.error m ∧
        (∃ a b, m = a ++ "older, incompatible" ++ b) ∧
        ∃ c, m = c ++ ("index schema " ++ toString (stored.getD 0)
          ++ ", ord schema " ++ toString SCHEMA_VERSION)) ∧
    (SCHEMA_VERSION < stored.getD 0 →
      ∃ m, Index.openSchemaCheck path stored = Except.error m ∧
        (∃ a b, m = a ++ "newer, incompatible" ++ b) ∧
        ∃ c, m = c ++ ("index schema " ++ toString (stored.getD 0)
          ++ ", ord schema " ++ toString SCHEMA_VERSION)) ∧
    (stored.getD 0 = SCHEMA_VERSION →
      Index.openSchemaCheck path stored = Except.ok ()) ∧
    Index.openSchemaCheck path none = Index.openSchemaCheck path (some 0) := by
  refine ⟨?_, ?_, ?_, rfl⟩
  · intro h
    refine ⟨("index at `" ++ path ++ "` appears to have been built with an ")
      ++ "older, incompatible"
      ++ " version of ord, consider deleting and rebuilding the index: "
      ++ ("index schema " ++ toString (stored.getD 0) ++ ", ord schema "
            ++ toString SCHEMA_VERSION), ?_, ?_, ?_⟩
    · unfold Index.openSchemaCheck
      rw [if_pos h]
    · refine ⟨"index at `" ++ path ++ "` appears to have been built with an ",
        " version of ord, consider deleting and rebuilding the index: "
          ++ ("index schema " ++ toString (stored.getD 0)
            ++ ", ord schema " ++ toString SCHEMA_VERSION), ?_⟩
      rw [String.append_assoc]
    · exact ⟨("index at `" ++ path ++ "` appears to have been built with an "
          ++ "older, incompatible")
          ++ " version of ord, consider deleting and rebuilding the index: ", rfl⟩
  · intro h
    refine ⟨("index at `" ++ path ++ "` appears to have been built with a ")
      ++ "newer, incompatible"
      ++ " version of ord, consider updating ord: "
      ++ ("index schema " ++ toString (stored.getD 0) ++ ", ord schema "
            ++ toString SCHEMA_VERSION), ?_, ?_, ?_⟩
    · unfold Index.openSchemaCheck
      rw [if_neg (by omega), if_pos h]
    · refine ⟨"index at `" ++ path ++ "` appears to have been built with a ",
        " version of ord, consider updating ord: "
          ++ ("index schema " ++ toString (stored.getD 0)
            ++ ", ord schema " ++ toString SCHEMA_VERSION), ?_⟩
      rw [String.append_assoc]
    · exact ⟨("index at `" ++ path ++ "` appears to have been built with a "
          ++ "newer, incompatible")
          ++ " version of ord, consider updating ord: ", rfl⟩
  · intro h
    unfold Index.openSchemaCheck
    rw [if_neg (by omega), if_neg (by omega)]

/-- Witness for C8: a store forced to schema 0 fails the gate with the
"older" message at a concrete path. -/
theorem open_schema_gate_witness :
    (some 0 : Option Nat).getD 0 < SCHEMA_VERSION ∧
    ∃ m, Index.openSchemaCheck "index.redb" (some 0) = Except.error m ∧
      (∃ a b, m = a ++ "older, incompatible" ++ b) ∧
      ∃ c, m = c ++ ("index schema " ++ toString ((some 0 : Option Nat).getD 0)
        ++ ", ord schema " ++ toString SCHEMA_VERSION) :=
  ⟨by decide, (open_schema_gate "index.redb" (some 0)).1 (by decide)⟩

/-! ### Claim C9: the RPC error mapping -/

/-- C9: `into_option` maps an RPC error with code -8, or an RPC error whose
message ends with "not found", to `Ok(None)`; every success `v` to
`Ok(Some(v))`; and every other error propagates unchanged. -/
theorem into_option_spec {α : Type} (r : Except RpcError α) :
    (∀ v : α, into_option r = Except.ok (some v) ↔ r = Except.ok v) ∧
    (into_option r = Except.ok none ↔
      ∃ code message,
        r = Except.error (RpcError.jsonRpc (JsonRpcError.rpc code message)) ∧
        (code = -8 ∨ strEndsWith message "not found" = true)) ∧
    (∀ e, into_option r = Except.error e ↔
      r = Except.error e ∧
        ∀ code message, e = RpcError.jsonRpc (JsonRpcError.rpc code message) →
          ¬(code = -8 ∨ strEndsWith message "not found" = true)) := by
  refine ⟨?_, ?_, ?_⟩
  · intro v
    match r with
    | Except.ok w => simp [into_option]
    | Except.error (RpcError.jsonRpc (JsonRpcError.rpc code message)) =>
      simp only [into_option]
      split
      · simp
      · split <;> simp
    | Except.error (RpcError.jsonRpc (JsonRpcError.otherJson d)) => simp [into_option]
    | Except.error (RpcError.otherRpc d) => simp [into_option]
  · match r with
    | Except.ok w => simp [into_option]
    | Except.error (RpcError.jsonRpc (JsonRpcError.rpc code message)) =>
      simp only [into_option]
      split
      · rename_i hc
        simp only [true_iff]
        exact ⟨code, message, rfl, Or.inl hc⟩
      · split
        · rename_i hm
          simp only [true_iff]
          exact ⟨code, message, rfl, Or.inr hm⟩
        · rename_i hc hm
          constructor
          · intro h
            exact absurd h (by simp)
          · rintro ⟨c, msg, heq, hor⟩
            cases heq
            rcases hor with h1 | h1
            · exact absurd h1 hc
            · exact absurd h1 hm
    | Except.error (RpcError.jsonRpc (JsonRpcError.otherJson d)) =>
      simp only [into_option]
      constructor
      · intro h; simp at h
      · rintro ⟨c, msg, heq, _⟩; simp at heq
    | Except.error (RpcError.otherRpc d) =>
      simp only [into_option]
      constructor
      · intro h; simp at h
      · rintro ⟨c, msg, heq, _⟩; simp at heq
  · intro e
    match r with
    | Except.ok w => simp [into_option]
    | Except.error (RpcError.jsonRpc (JsonRpcError.rpc code message)) =>
      simp only [into_option]
      split
      · rename_i hc
        constructor
        · intro h
          exact absurd h (by simp)
        · rintro ⟨heq, hall⟩
          cases heq
          exact absurd (Or.inl hc) (hall code message rfl)
      · split
        · rename_i hm
          constructor
          · intro h
            exact absurd h (by simp)
          · rintro ⟨heq, hall⟩
            cases heq
            exact absurd (Or.inr hm) (hall code message rfl)
        · rename_i hc hm
          constructor
          · intro h
            cases h
            refine ⟨rfl, ?_⟩
            rintro c msg heq (h1 | h1)
            · cases heq; exact absurd h1 hc
            · cases heq; exact absurd h1 hm
          · rintro ⟨heq, _⟩
            cases heq; rfl
    | Except.error (RpcError.jsonRpc (JsonRpcError.otherJson d)) =>
      simp only [into_option]
      constructor
      · intro h
        cases h
        exact ⟨rfl, by rintro c msg heq; simp at heq⟩
      · rintro ⟨heq, _⟩
        cases heq; rfl
    | Except.error (RpcError.otherRpc d) =>
      simp only [into_option]
      constructor
      · intro h
        cases h
        exact ⟨rfl, by rintro c msg heq; simp at heq⟩
      · rintro ⟨heq, _⟩
        cases heq; rfl

/-! ### Claim C10: rare-sat reads without the sat index -/

/-- C10: without the sat index, `rare_sat_satpoint` and `rare_sat_satpoints`
return `Ok(None)` rather than an error, while `list` and `find` fail with an
error in the same configuration. -/
theorem rare_sats_tolerate_missing_sat_index (idx : IndexState) (sat : Nat)
    (outpoint : OutPoint) (h : idx.hasSatIndex = false) :
    Index.rare_sat_satpoint idx sat = Except.ok none ∧
    Index.rare_sat_satpoints idx = Except.ok none ∧
    (∃ m, Index.list idx outpoint = Except.error m) ∧
    (∃ m, Index.find idx sat = Except.error m) := by
  refine ⟨?_, ?_, ?_, ?_⟩
  · unfold Index.rare_sat_satpoint Index.has_sat_index
    rw [h]
    rfl
  · unfold Index.rare_sat_satpoints Index.has_sat_index
    rw [h]
    rfl
  · refine ⟨"list requires index created with `--index-sats` flag", ?_⟩
    unfold Index.list Index.require_sat_index Index.has_sat_index
    rw [h]
    rfl
  · refine ⟨"find requires index created with `--index-sats` flag", ?_⟩
    unfold Index.find Index.require_sat_index Index.has_sat_index
    rw [h]
    rfl

/-- Witness for C10 at a concrete sat-index-free state. -/
theorem rare_sats_tolerate_missing_sat_index_witness :
    (IndexState.mk false ⟨[]⟩ ⟨[]⟩ 0 []).hasSatIndex = false ∧
    Index.rare_sat_satpoint (IndexState.mk false ⟨[]⟩ ⟨[]⟩ 0 []) 0 = Except.ok none ∧
    Index.rare_sat_satpoints (IndexState.mk false ⟨[]⟩ ⟨[]⟩ 0 []) = Except.ok none ∧
    (∃ m, Index.list (IndexState.mk false ⟨[]⟩ ⟨[]⟩ 0 []) OutPoint.null = Except.error m) ∧
    (∃ m, Index.find (IndexState.mk false ⟨[]⟩ ⟨[]⟩ 0 []) 0 = Except.error m) :=
  ⟨rfl, rare_sats_tolerate_missing_sat_index (IndexState.mk false ⟨[]⟩ ⟨[]⟩ 0 [])
    0 OutPoint.null rfl⟩

/-! ### Claim C7: `Index::list` -/

/-- C7: `list` requires the sat index, failing with an error naming the
`--index-sats` flag when the `OUTPOINT_TO_SAT_RANGES` table is absent; with
the table, a stored row decodes to `Unspent` via consecutive 11-byte chunks
of the stored value, no row but an active-chain transaction gives `Spent`,
and otherwise `None`. -/
theorem list_spec (idx : IndexState) (outpoint : OutPoint) :
    (idx.hasSatIndex = false →
      Index.list idx outpoint =
        Except.error ("list" ++ " requires index created with `--index-sats` flag")) ∧
    (idx.hasSatIndex = true → ∀ bytes,
      idx.outpoint_to_sat_ranges.get outpoint = some bytes →
      Index.list idx outpoint =
        Except.ok (some (IndexList.Unspent ((chunksExact11 bytes).map SatRange.load)))) ∧
    (idx.hasSatIndex = true →
      idx.outpoint_to_sat_ranges.get outpoint = none →
      Index.is_transaction_in_active_chain idx outpoint.txid = true →
      Index.list idx outpoint = Except.ok (some IndexList.Spent)) ∧
    (idx.hasSatIndex = true →
      idx.outpoint_to_sat_ranges.get outpoint = none →
      Index.is_transaction_in_active_chain idx outpoint.txid = false →
      Index.list idx outpoint = Except.ok none) := by
  refine ⟨?_, ?_, ?_, ?_⟩
  · intro h
    simp [Index.list, Index.require_sat_index, Index.has_sat_index, h]
  · intro h bytes hrow
    simp [Index.list, Index.require_sat_index, Index.has_sat_index,
      Index.list_inner, h, hrow, decodeRanges]
  · intro h hrow hchain
    simp [Index.list, Index.require_sat_index, Index.has_sat_index,
      Index.list_inner, h, hrow, hchain]
  · intro h hrow hchain
    simp [Index.list, Index.require_sat_index, Index.has_sat_index,
      Index.list_inner, h, hrow, hchain]

/-- Witness for C7: all four branches exercised at concrete states — one
index without the sat-range table, one with a stored row, a rowless spent
outpoint in the active chain, and a rowless unknown outpoint. -/
theorem list_spec_witness :
    Index.list (IndexState.mk false ⟨[]⟩ ⟨[]⟩ 1 []) ⟨5, 0⟩ =
      Except.error ("list" ++ " requires index created with `--index-sats` flag") ∧
    Index.list (IndexState.mk true ⟨[(⟨5, 0⟩, SatRange.store (0, 3))]⟩ ⟨[]⟩ 1 [7]) ⟨5, 0⟩ =
      Except.ok (some (IndexList.Unspent [(0, 3)])) ∧
    Index.list (IndexState.mk true ⟨[(⟨5, 0⟩, SatRange.store (0, 3))]⟩ ⟨[]⟩ 1 [7]) ⟨7, 1⟩ =
      Except.ok (some IndexList.Spent) ∧
    Index.list (IndexState.mk true ⟨[(⟨5, 0⟩, SatRange.store (0, 3))]⟩ ⟨[]⟩ 1 [7]) ⟨9, 0⟩ =
      Except.ok none := by
  refine ⟨(list_spec (IndexState.mk false ⟨[]⟩ ⟨[]⟩ 1 []) ⟨5, 0⟩).1 rfl, ?_, ?_, ?_⟩
  · have := (list_spec (IndexState.mk true ⟨[(⟨5, 0⟩, SatRange.store (0, 3))]⟩ ⟨[]⟩ 1 [7])
      ⟨5, 0⟩).2.1 rfl (SatRange.store (0, 3)) (by decide)
    rw [this]
    rfl
  · exact (list_spec (IndexState.mk true ⟨[(⟨5, 0⟩, SatRange.store (0, 3))]⟩ ⟨[]⟩ 1 [7])
      ⟨7, 1⟩).2.2.1 rfl (by decide) (by decide)
  · exact (list_spec (IndexState.mk true ⟨[(⟨5, 0⟩, SatRange.store (0, 3))]⟩ ⟨[]⟩ 1 [7])
      ⟨9, 0⟩).2.2.2 rfl (by decide) (by decide)

/-! ### Field-level characterization of `update_inscription_location` -/

/-- The sat attached to a new inscription: the `input_sat_ranges` scan of the
`Origin::New` branch. -/
def newSat (isr : Option (List (Nat × Nat))) (offset : Nat) : Option Nat :=
  match isr with
  | some ranges => satAtOffset ranges 0 offset
  | none => none

theorem update_new_fields (u : InscriptionUpdater) (isr : Option (List (Nat × Nat)))
    (fl : Flotsam) (nsp : SatPoint) (fee : Nat)
    (horigin : fl.origin = Origin.New fee) :
    (u.update_inscription_location isr fl nsp).next_number = u.next_number + 1 ∧
    (u.update_inscription_location isr fl nsp).number_to_id =
      u.number_to_id.insert u.next_number fl.inscription_id ∧
    (u.update_inscription_location isr fl nsp).id_to_entry =
      u.id_to_entry.insert fl.inscription_id
        ⟨fee, u.height, u.next_number, newSat isr fl.offset, u.timestamp⟩ ∧
    (u.update_inscription_location isr fl nsp).satpoint_to_id =
      u.satpoint_to_id.insert nsp fl.inscription_id ∧
    (u.update_inscription_location isr fl nsp).id_to_satpoint =
      u.id_to_satpoint.insert fl.inscription_id nsp ∧
    (u.update_inscription_location isr fl nsp).flotsam = u.flotsam ∧
    (u.update_inscription_location isr fl nsp).reward = u.reward ∧
    (u.update_inscription_location isr fl nsp).lost_sats = u.lost_sats ∧
    (u.update_inscription_location isr fl nsp).height = u.height ∧
    (u.update_inscription_location isr fl nsp).value_cache = u.value_cache ∧
    (u.update_inscription_location isr fl nsp).value_receiver = u.value_receiver ∧
    (u.update_inscription_location isr fl nsp).outpoint_to_value = u.outpoint_to_value ∧
    (u.update_inscription_location isr fl nsp).timestamp = u.timestamp := by
  rcases isr with _ | ranges
  · simp [InscriptionUpdater.update_inscription_location, horigin, newSat]
  · rcases hs : satAtOffset ranges 0 fl.offset with _ | n
    · simp [InscriptionUpdater.update_inscription_location, horigin, newSat, hs]
    · simp [InscriptionUpdater.update_inscription_location, horigin, newSat, hs]

theorem update_new_sat_table (u : InscriptionUpdater) (isr : Option (List (Nat × Nat)))
    (fl : Flotsam) (nsp : SatPoint) (fee : Nat)
    (horigin : fl.origin = Origin.New fee) :
    (u.update_inscription_location isr fl nsp).sat_to_inscription_id =
      (match newSat isr fl.offset with
        | some n => u.sat_to_inscription_id.insert n fl.inscription_id
        | none => u.sat_to_inscription_id) := by
  rcases isr with _ | ranges
  · simp [InscriptionUpdater.update_inscription_location, horigin, newSat]
  · rcases hs : satAtOffset ranges 0 fl.offset with _ | n
    · simp [InscriptionUpdater.update_inscription_location, horigin, newSat, hs]
    · simp [InscriptionUpdater.update_inscription_location, horigin, newSat, hs]

theorem update_old_fields (u : InscriptionUpdater) (isr : Option (List (Nat × Nat)))
    (fl : Flotsam) (nsp : SatPoint) (osp : SatPoint)
    (horigin : fl.origin = Origin.Old osp) :
    (u.update_inscription_location isr fl nsp).next_number = u.next_number ∧
    (u.update_inscription_location isr fl nsp).number_to_id = u.number_to_id ∧
    (u.update_inscription_location isr fl nsp).id_to_entry = u.id_to_entry ∧
    (u.update_inscription_location isr fl nsp).sat_to_inscription_id =
      u.sat_to_inscription_id ∧
    (u.update_inscription_location isr fl nsp).satpoint_to_id =
      (u.satpoint_to_id.removeKey osp).insert nsp fl.inscription_id ∧
    (u.update_inscription_location isr fl nsp).id_to_satpoint =
      u.id_to_satpoint.insert fl.inscription_id nsp ∧
    (u.update_inscription_location isr fl nsp).flotsam = u.flotsam ∧
    (u.update_inscription_location isr fl nsp).reward = u.reward ∧
    (u.update_inscription_location isr fl nsp).lost_sats = u.lost_sats ∧
    (u.update_inscription_location isr fl nsp).height = u.height ∧
    (u.update_inscription_location isr fl nsp).value_cache = u.value_cache ∧
    (u.update_inscription_location isr fl nsp).value_receiver = u.value_receiver ∧
    (u.update_inscription_location isr fl nsp).outpoint_to_value = u.outpoint_to_value ∧
    (u.update_inscription_location isr fl nsp).timestamp = u.timestamp := by
  simp [InscriptionUpdater.update_inscription_location, horigin]

theorem max?_eq_some_of_mem_of_le {l : List Nat} {m : Nat}
    (hm : m ∈ l) (hle : ∀ x ∈ l, x ≤ m) : l.max? = some m := by
  rw [List.max?_eq_some_iff]
  · exact ⟨hm, hle⟩
  · intro a; exact Nat.le_refl a
  · intro a b; rcases Nat.le_total a b with h | h
    · rw [Nat.max_eq_right h]; right; rfl
    · rw [Nat.max_eq_left h]; left; rfl
  · intro a b c; exact Nat.max_le

theorem Tbl.removeKey_eq_self {α β : Type} [DecidableEq α] {t : Tbl α β} {k : α}
    (h : k ∉ t.keys) : t.removeKey k = t := by
  unfold Tbl.removeKey
  have : List.filter (fun p => decide (p.1 ≠ k)) t.rows = t.rows := by
    rw [List.filter_eq_self]
    intro p hp
    simp only [decide_eq_true_eq]
    intro hpk
    exact h (hpk ▸ List.mem_map.mpr ⟨p, hp, rfl⟩)
  rw [this]

/-! ### Claim C5: `next_number` derivation and contiguous numbering -/

/-- C5: `InscriptionUpdater::new` re-derives `next_number` from the maximum
key of `INSCRIPTION_NUMBER_TO_INSCRIPTION_ID` plus one (0 for an empty
table) instead of a stored counter: on a table whose keys are exactly
`[0, n)` it yields `n`.  Each new inscription is numbered with the current
`next_number` before the increment, keeping keys contiguous from 0 and
giving a fresh inscription id exactly one number entry; `Origin::Old` moves
touch neither the table nor the counter. -/
theorem next_number_spec
    (height lost_sats timestamp : Nat) (id_to_satpoint : Tbl InscriptionId SatPoint)
    (value_receiver : List Nat) (id_to_entry : Tbl InscriptionId InscriptionEntry)
    (number_to_id : Tbl Nat InscriptionId)
    (outpoint_to_value value_cache : Tbl OutPoint Nat)
    (sat_to_inscription_id : Tbl Nat InscriptionId)
    (satpoint_to_id : Tbl SatPoint InscriptionId)
    (n : Nat) (hkeys : ∀ k, k ∈ number_to_id.keys ↔ k < n)
    (u : InscriptionUpdater) (isr : Option (List (Nat × Nat))) (fl : Flotsam)
    (nsp : SatPoint) :
    ((InscriptionUpdater.new height id_to_satpoint value_receiver id_to_entry
        lost_sats number_to_id outpoint_to_value sat_to_inscription_id
        satpoint_to_id timestamp value_cache).next_number = n) ∧
    (∀ fee, fl.origin = Origin.New fee →
      (∀ k, k ∈ u.number_to_id.keys ↔ k < u.next_number) →
      (u.update_inscription_location isr fl nsp).next_number = u.next_number + 1 ∧
      (∀ k, k ∈ (u.update_inscription_location isr fl nsp).number_to_id.keys ↔
        k < u.next_number + 1) ∧
      ((u.update_inscription_location isr fl nsp).number_to_id.get u.next_number =
        some fl.inscription_id) ∧
      ((∀ p ∈ u.number_to_id.rows, p.2 ≠ fl.inscription_id) →
        ((u.update_inscription_location isr fl nsp).number_to_id.rows.filter
          (fun p => decide (p.2 = fl.inscription_id))).length = 1)) ∧
    (∀ osp, fl.origin = Origin.Old osp →
      (u.update_inscription_location isr fl nsp).number_to_id = u.number_to_id ∧
      (u.update_inscription_location isr fl nsp).next_number = u.next_number) := by
  refine ⟨?_, ?_, ?_⟩
  · cases n with
    | zero =>
      have hnil : number_to_id.keys = [] :=
        List.eq_nil_iff_forall_not_mem.mpr (fun k hk => by
          have := (hkeys k).mp hk
          omega)
      simp [InscriptionUpdater.new, hnil]
    | succ m =>
      have hmax : number_to_id.keys.max? = some m :=
        max?_eq_some_of_mem_of_le ((hkeys m).mpr (Nat.lt_succ_self m))
          (fun x hx => by have := (hkeys x).mp hx; omega)
      simp [InscriptionUpdater.new, hmax]
  · intro fee horigin hu
    obtain ⟨h1, h2, _⟩ := update_new_fields u isr fl nsp fee horigin
    have hnotmem : u.next_number ∉ u.number_to_id.keys := by
      intro hmem
      have := (hu u.next_number).mp hmem
      omega
    have hrem : u.number_to_id.removeKey u.next_number = u.number_to_id :=
      Tbl.removeKey_eq_self hnotmem
    refine ⟨h1, ?_, ?_, ?_⟩
    · intro k
      rw [h2]
      unfold Tbl.insert Tbl.keys
      rw [hrem]
      simp only [List.map_cons, List.mem_cons]
      rw [show (Tbl.keys u.number_to_id) = List.map Prod.fst u.number_to_id.rows from rfl]
        at hu
      rw [hu k]
      omega
    · rw [h2]
      exact Tbl.get_insert_self u.number_to_id u.next_number fl.inscription_id
    · intro hfresh
      rw [h2]
      unfold Tbl.insert
      rw [hrem]
      have hnil : List.filter (fun p => decide (p.2 = fl.inscription_id))
          u.number_to_id.rows = [] := by
        rw [List.filter_eq_nil]
        intro p hp
        simp only [decide_eq_true_eq]
        exact hfresh p hp
      simp [List.filter_cons, hnil]
  · intro osp horigin
    obtain ⟨h1, h2, _⟩ := update_old_fields u isr fl nsp osp horigin
    exact ⟨h2, h1⟩

/-- Witness for C5: a two-entry contiguous table yields `next_number = 2`;
minting on it numbers the new inscription 2, keeps keys contiguous below 3,
and gives the fresh id exactly one row. -/
theorem next_number_spec_witness :
    (InscriptionUpdater.new 9 ⟨[]⟩ [] ⟨[]⟩ 0 ⟨[(0, 11), (1, 12)]⟩ ⟨[]⟩ ⟨[]⟩ ⟨[]⟩ 5
        ⟨[]⟩).next_number = 2 ∧
    (((InscriptionUpdater.new 9 ⟨[]⟩ [] ⟨[]⟩ 0 ⟨[(0, 11), (1, 12)]⟩ ⟨[]⟩ ⟨[]⟩ ⟨[]⟩ 5
        ⟨[]⟩).update_inscription_location none ⟨13, 0, Origin.New 7⟩
        ⟨⟨13, 0⟩, 0⟩).next_number = 3 ∧
      (((InscriptionUpdater.new 9 ⟨[]⟩ [] ⟨[]⟩ 0 ⟨[(0, 11), (1, 12)]⟩ ⟨[]⟩ ⟨[]⟩ ⟨[]⟩ 5
        ⟨[]⟩).update_inscription_location none ⟨13, 0, Origin.New 7⟩
        ⟨⟨13, 0⟩, 0⟩).number_to_id.get 2 = some 13) ∧
      (((InscriptionUpdater.new 9 ⟨[]⟩ [] ⟨[]⟩ 0 ⟨[(0, 11), (1, 12)]⟩ ⟨[]⟩ ⟨[]⟩ ⟨[]⟩ 5
        ⟨[]⟩).update_inscription_location none ⟨13, 0, Origin.New 7⟩
        ⟨⟨13, 0⟩, 0⟩).number_to_id.rows.filter
          (fun p => decide (p.2 = 13))).length = 1) := by
  have hk2 : ∀ k, k ∈ (⟨[(0, 11), (1, 12)]⟩ : Tbl Nat InscriptionId).keys ↔ k < 2 := by
    intro k
    simp only [Tbl.keys, List.map_cons, List.map_nil, List.mem_cons,
      List.not_mem_nil, or_false]
    omega
  have base := next_number_spec 9 0 5 ⟨[]⟩ [] ⟨[]⟩ ⟨[(0, 11), (1, 12)]⟩ ⟨[]⟩ ⟨[]⟩ ⟨[]⟩
    ⟨[]⟩ 2 hk2
    (InscriptionUpdater.new 9 ⟨[]⟩ [] ⟨[]⟩ 0 ⟨[(0, 11), (1, 12)]⟩ ⟨[]⟩ ⟨[]⟩ ⟨[]⟩ 5 ⟨[]⟩)
    none ⟨13, 0, Origin.New 7⟩ ⟨⟨13, 0⟩, 0⟩
  have hnn : (InscriptionUpdater.new 9 ⟨[]⟩ [] ⟨[]⟩ 0 ⟨[(0, 11), (1, 12)]⟩ ⟨[]⟩ ⟨[]⟩ ⟨[]⟩
      5 ⟨[]⟩).next_number = 2 := base.1
  have htbl : (InscriptionUpdater.new 9 ⟨[]⟩ [] ⟨[]⟩ 0 ⟨[(0, 11), (1, 12)]⟩ ⟨[]⟩ ⟨[]⟩
      ⟨[]⟩ 5 ⟨[]⟩).number_to_id = (⟨[(0, 11), (1, 12)]⟩ : Tbl Nat InscriptionId) := rfl
  have hmint := base.2.1 7 rfl (by
    intro k
    rw [hnn, htbl]
    exact hk2 k)
  refine ⟨hnn, ?_, ?_, ?_⟩
  · rw [hmint.1, hnn]
  · have := hmint.2.2.1
    rw [hnn] at this
    exact this
  · exact hmint.2.2.2 (by decide)

/-! ### Claim C1: the satpoint tables stay mutual inverses -/

/-- The two location tables are mutual inverses on their domains. -/
def Tbl.Inverse {α β : Type} [DecidableEq α] [DecidableEq β]
    (t1 : Tbl α β) (t2 : Tbl β α) : Prop :=
  ∀ a b, t1.get a = some b ↔ t2.get b = some a

theorem Tbl.length_le_of_inverse {α β : Type} [DecidableEq α] [DecidableEq β]
    {s1 : Tbl α β} {s2 : Tbl β α} (hn1 : s1.KeysNodup)
    (himp : ∀ a b, s1.get a = some b → s2.get b = some a) :
    s1.rows.length ≤ s2.rows.length := by
  have hnodup1 : s1.rows.Nodup := List.Nodup.of_map Prod.fst hn1
  have hmapnodup : (s1.rows.map Prod.swap).Nodup :=
    hnodup1.map Prod.swap_injective
  have hss : (s1.rows.map Prod.swap) ⊆ s2.rows := by
    intro p hp
    rcases List.mem_map.mp hp with ⟨⟨a, b⟩, hab, rfl⟩
    exact Tbl.mem_of_get_eq_some (himp a b (Tbl.get_eq_some_of_mem hn1 hab))
  calc s1.rows.length = (s1.rows.map Prod.swap).length := (List.length_map _ _).symm
    _ ≤ s2.rows.length := (hmapnodup.subperm hss).length_le

/-- Mutual inverses with duplicate-free keys have equal cardinality. -/
theorem Tbl.card_eq_of_inverse {α β : Type} [DecidableEq α] [DecidableEq β]
    {t1 : Tbl α β} {t2 : Tbl β α} (h1 : t1.KeysNodup) (h2 : t2.KeysNodup)
    (hmi : Tbl.Inverse t1 t2) : t1.card = t2.card :=
  Nat.le_antisymm
    (Tbl.length_le_of_inverse h1 (fun a b h => (hmi a b).mp h))
    (Tbl.length_le_of_inverse h2 (fun b a h => (hmi a b).mpr h))

/-- C1: `update_inscription_location` preserves the mutual-inverse invariant
between `INSCRIPTION_ID_TO_SATPOINT` and `SATPOINT_TO_INSCRIPTION_ID` and
their equal cardinality: for an `Origin::Old` flotsam it removes the old
satpoint row, and in all cases it inserts both directions for the new
satpoint.  Hypotheses: the invariant held before; an old flotsam really was
tracked at its old satpoint; a newly minted id is not yet in the tables;
and the new satpoint is unoccupied (or occupied by this very inscription). -/
theorem update_location_preserves_inverse (u : InscriptionUpdater)
    (isr : Option (List (Nat × Nat))) (fl : Flotsam) (nsp : SatPoint)
    (hnd1 : u.id_to_satpoint.KeysNodup) (hnd2 : u.satpoint_to_id.KeysNodup)
    (hmi : Tbl.Inverse u.id_to_satpoint u.satpoint_to_id)
    (hold : ∀ osp, fl.origin = Origin.Old osp →
      u.satpoint_to_id.get osp = some fl.inscription_id)
    (hnew : ∀ fee, fl.origin = Origin.New fee →
      u.id_to_satpoint.get fl.inscription_id = none)
    (hfresh : u.satpoint_to_id.get nsp = none ∨
      u.satpoint_to_id.get nsp = some fl.inscription_id) :
    Tbl.Inverse (u.update_inscription_location isr fl nsp).id_to_satpoint
      (u.update_inscription_location isr fl nsp).satpoint_to_id ∧
    (u.update_inscription_location isr fl nsp).id_to_satpoint.KeysNodup ∧
    (u.update_inscription_location isr fl nsp).satpoint_to_id.KeysNodup ∧
    (u.update_inscription_location isr fl nsp).id_to_satpoint.card =
      (u.update_inscription_location isr fl nsp).satpoint_to_id.card ∧
    (u.update_inscription_location isr fl nsp).satpoint_to_id.get nsp =
      some fl.inscription_id ∧
    (u.update_inscription_location isr fl nsp).id_to_satpoint.get fl.inscription_id =
      some nsp ∧
    (∀ osp, fl.origin = Origin.Old osp → osp ≠ nsp →
      (u.update_inscription_location isr fl nsp).satpoint_to_id.get osp = none) := by
  cases horigin : fl.origin with
  | New fee =>
    obtain ⟨-, -, -, ht2, ht1, -⟩ := update_new_fields u isr fl nsp fee horigin
    have hid : u.id_to_satpoint.get fl.inscription_id = none := hnew fee horigin
    have hinv : Tbl.Inverse (u.update_inscription_location isr fl nsp).id_to_satpoint
        (u.update_inscription_location isr fl nsp).satpoint_to_id := by
      intro a b
      rw [ht1, ht2]
      by_cases ha : a = fl.inscription_id
      · subst ha
        rw [Tbl.get_insert_self]
        by_cases hb : b = nsp
        · subst hb
          rw [Tbl.get_insert_self]
          simp
        · rw [Tbl.get_insert_ne _ _ hb]
          constructor
          · intro h
            exact absurd (Option.some.inj h).symm hb
          · intro h
            have := (hmi fl.inscription_id b).mpr h
            rw [hid] at this
            exact absurd this (by simp)
      · rw [Tbl.get_insert_ne _ _ ha]
        by_cases hb : b = nsp
        · subst hb
          rw [Tbl.get_insert_self]
          constructor
          · intro h
            have := (hmi a b).mp h
            rcases hfresh with hf | hf
            · rw [hf] at this; exact absurd this (by simp)
            · rw [hf] at this
              exact absurd (Option.some.inj this) (fun hh => ha hh.symm)
          · intro h
            exact absurd (Option.some.inj h).symm ha
        · rw [Tbl.get_insert_ne _ _ hb]
          exact hmi a b
    have hn1 : (u.update_inscription_location isr fl nsp).id_to_satpoint.KeysNodup := by
      rw [ht1]; exact Tbl.keysNodup_insert _ _ _ hnd1
    have hn2 : (u.update_inscription_location isr fl nsp).satpoint_to_id.KeysNodup := by
      rw [ht2]; exact Tbl.keysNodup_insert _ _ _ hnd2
    refine ⟨hinv, hn1, hn2, Tbl.card_eq_of_inverse hn1 hn2 hinv, ?_, ?_, ?_⟩
    · rw [ht2]; exact Tbl.get_insert_self _ _ _
    · rw [ht1]; exact Tbl.get_insert_self _ _ _
    · intro osp hosp
      cases hosp
  | Old osp =>
    obtain ⟨-, -, -, -, ht2, ht1, -⟩ := update_old_fields u isr fl nsp osp horigin
    have holdsp : u.satpoint_to_id.get osp = some fl.inscription_id := hold osp horigin
    have hido : u.id_to_satpoint.get fl.inscription_id = some osp :=
      (hmi fl.inscription_id osp).mpr holdsp
    have hinv : Tbl.Inverse (u.update_inscription_location isr fl nsp).id_to_satpoint
        (u.update_inscription_location isr fl nsp).satpoint_to_id := by
      intro a b
      rw [ht1, ht2]
      by_cases ha : a = fl.inscription_id
      · subst ha
        rw [Tbl.get_insert_self]
        by_cases hb : b = nsp
        · subst hb
          rw [Tbl.get_insert_self]
          simp
        · rw [Tbl.get_insert_ne _ _ hb]
          constructor
          · intro h
            exact absurd (Option.some.inj h).symm hb
          · intro h
            by_cases hbo : b = osp
            · subst hbo
              rw [Tbl.get_removeKey_self] at h
              exact absurd h (by simp)
            · rw [Tbl.get_removeKey_ne _ hbo] at h
              have := (hmi fl.inscription_id b).mpr h
              rw [hido] at this
              exact absurd (Option.some.inj this).symm hbo
      · rw [Tbl.get_insert_ne _ _ ha]
        by_cases hb : b = nsp
        · subst hb
          rw [Tbl.get_insert_self]
          constructor
          · intro h
            have := (hmi a b).mp h
            rcases hfresh with hf | hf
            · rw [hf] at this; exact absurd this (by simp)
            · rw [hf] at this
              exact absurd (Option.some.inj this) (fun hh => ha hh.symm)
          · intro h
            exact absurd (Option.some.inj h).symm ha
        · rw [Tbl.get_insert_ne _ _ hb]
          by_cases hbo : b = osp
          · subst hbo
            rw [Tbl.get_removeKey_self]
            constructor
            · intro h
              have := (hmi a b).mp h
              rw [holdsp] at this
              exact absurd (Option.some.inj this) (fun hh => ha hh.symm)
            · intro h
              exact absurd h (by simp)
          · rw [Tbl.get_removeKey_ne _ hbo]
            exact hmi a b
    have hn1 : (u.update_inscription_location isr fl nsp).id_to_satpoint.KeysNodup := by
      rw [ht1]; exact Tbl.keysNodup_insert _ _ _ hnd1
    have hn2 : (u.update_inscription_location isr fl nsp).satpoint_to_id.KeysNodup := by
      rw [ht2]
      exact Tbl.keysNodup_insert _ _ _ (Tbl.keysNodup_removeKey _ _ hnd2)
    refine ⟨hinv, hn1, hn2, Tbl.card_eq_of_inverse hn1 hn2 hinv, ?_, ?_, ?_⟩
    · rw [ht2]; exact Tbl.get_insert_self _ _ _
    · rw [ht1]; exact Tbl.get_insert_self _ _ _
    · intro osp' hosp hne
      cases hosp
      rw [ht2, Tbl.get_insert_ne _ _ hne, Tbl.get_removeKey_self]

theorem Tbl.inverse_singleton {α β : Type} [DecidableEq α] [DecidableEq β]
    (a : α) (b : β) : Tbl.Inverse (⟨[(a, b)]⟩ : Tbl α β) ⟨[(b, a)]⟩ := by
  intro x y
  constructor
  · intro h
    have hm := Tbl.mem_of_get_eq_some h
    simp only [List.mem_singleton, Prod.mk.injEq] at hm
    obtain ⟨h1, h2⟩ := hm
    subst h1
    subst h2
    exact Tbl.get_cons_self _ _ []
  · intro h
    have hm := Tbl.mem_of_get_eq_some h
    simp only [List.mem_singleton, Prod.mk.injEq] at hm
    obtain ⟨h1, h2⟩ := hm
    subst h1
    subst h2
    exact Tbl.get_cons_self _ _ []

/-- Witness for C1: moving the single tracked inscription 5 from satpoint
`((3,0),2)` to `((9,0),1)` keeps the two tables mutual inverses of equal
cardinality, maps both directions for the new satpoint, and clears the old
satpoint row. -/
theorem update_location_preserves_inverse_witness :
    Tbl.Inverse (InscriptionUpdater.update_inscription_location
      ⟨[], 4, ⟨[(5, ⟨⟨3, 0⟩, 2⟩)]⟩, [], ⟨[]⟩, 0, 1, ⟨[]⟩, ⟨[]⟩, 0, ⟨[]⟩,
        ⟨[(⟨⟨3, 0⟩, 2⟩, 5)]⟩, 0, ⟨[]⟩⟩
      none ⟨5, 2, Origin.Old ⟨⟨3, 0⟩, 2⟩⟩ ⟨⟨9, 0⟩, 1⟩).id_to_satpoint
      (InscriptionUpdater.update_inscription_location
      ⟨[], 4, ⟨[(5, ⟨⟨3, 0⟩, 2⟩)]⟩, [], ⟨[]⟩, 0, 1, ⟨[]⟩, ⟨[]⟩, 0, ⟨[]⟩,
        ⟨[(⟨⟨3, 0⟩, 2⟩, 5)]⟩, 0, ⟨[]⟩⟩
      none ⟨5, 2, Origin.Old ⟨⟨3, 0⟩, 2⟩⟩ ⟨⟨9, 0⟩, 1⟩).satpoint_to_id ∧
    (InscriptionUpdater.update_inscription_location
      ⟨[], 4, ⟨[(5, ⟨⟨3, 0⟩, 2⟩)]⟩, [], ⟨[]⟩, 0, 1, ⟨[]⟩, ⟨[]⟩, 0, ⟨[]⟩,
        ⟨[(⟨⟨3, 0⟩, 2⟩, 5)]⟩, 0, ⟨[]⟩⟩
      none ⟨5, 2, Origin.Old ⟨⟨3, 0⟩, 2⟩⟩ ⟨⟨9, 0⟩, 1⟩).id_to_satpoint.card =
    (InscriptionUpdater.update_inscription_location
      ⟨[], 4, ⟨[(5, ⟨⟨3, 0⟩, 2⟩)]⟩, [], ⟨[]⟩, 0, 1, ⟨[]⟩, ⟨[]⟩, 0, ⟨[]⟩,
        ⟨[(⟨⟨3, 0⟩, 2⟩, 5)]⟩, 0, ⟨[]⟩⟩
      none ⟨5, 2, Origin.Old ⟨⟨3, 0⟩, 2⟩⟩ ⟨⟨9, 0⟩, 1⟩).satpoint_to_id.card ∧
    (InscriptionUpdater.update_inscription_location
      ⟨[], 4, ⟨[(5, ⟨⟨3, 0⟩, 2⟩)]⟩, [], ⟨[]⟩, 0, 1, ⟨[]⟩, ⟨[]⟩, 0, ⟨[]⟩,
        ⟨[(⟨⟨3, 0⟩, 2⟩, 5)]⟩, 0, ⟨[]⟩⟩
      none ⟨5, 2, Origin.Old ⟨⟨3, 0⟩, 2⟩⟩ ⟨⟨9, 0⟩, 1⟩).satpoint_to_id.get
        ⟨⟨9, 0⟩, 1⟩ = some 5 ∧
    (InscriptionUpdater.update_inscription_location
      ⟨[], 4, ⟨[(5, ⟨⟨3, 0⟩, 2⟩)]⟩, [], ⟨[]⟩, 0, 1, ⟨[]⟩, ⟨[]⟩, 0, ⟨[]⟩,
        ⟨[(⟨⟨3, 0⟩, 2⟩, 5)]⟩, 0, ⟨[]⟩⟩
      none ⟨5, 2, Origin.Old ⟨⟨3, 0⟩, 2⟩⟩ ⟨⟨9, 0⟩, 1⟩).satpoint_to_id.get
        ⟨⟨3, 0⟩, 2⟩ = none := by
  have h := update_location_preserves_inverse
    ⟨[], 4, ⟨[(5, ⟨⟨3, 0⟩, 2⟩)]⟩, [], ⟨[]⟩, 0, 1, ⟨[]⟩, ⟨[]⟩, 0, ⟨[]⟩,
      ⟨[(⟨⟨3, 0⟩, 2⟩, 5)]⟩, 0, ⟨[]⟩⟩
    none ⟨5, 2, Origin.Old ⟨⟨3, 0⟩, 2⟩⟩ ⟨⟨9, 0⟩, 1⟩
    (by unfold Tbl.KeysNodup Tbl.keys; decide)
    (by unfold Tbl.KeysNodup Tbl.keys; decide)
    (Tbl.inverse_singleton (5 : InscriptionId) (⟨⟨3, 0⟩, 2⟩ : SatPoint))
    (by intro osp hosp; cases hosp; decide)
    (by intro fee hfee; cases hfee)
    (Or.inl (by decide))
  exact ⟨h.1, h.2.2.2.1, h.2.2.2.2.1, h.2.2.2.2.2.2 ⟨⟨3, 0⟩, 2⟩ rfl (by decide)⟩

/-! ### Sorting and loop lemmas -/

theorem insertByKey_perm {γ : Type} (key : γ → Nat) (x : γ) (l : List γ) :
    List.Perm (insertByKey key x l) (x :: l) := by
  induction l with
  | nil => exact List.Perm.refl _
  | cons y rest ih =>
    unfold insertByKey
    split
    · exact List.Perm.refl _
    · exact List.Perm.trans (ih.cons y) (List.Perm.swap x y rest)

theorem sortByKey_perm {γ : Type} (key : γ → Nat) (l : List γ) :
    List.Perm (sortByKey key l) l := by
  induction l with
  | nil => exact List.Perm.refl _
  | cons x rest ih =>
    exact List.Perm.trans (insertByKey_perm key x _) (ih.cons x)

theorem insertByKey_pairwise {γ : Type} (key : γ → Nat) (x : γ) (l : List γ)
    (h : List.Pairwise (fun a b => key a ≤ key b) l) :
    List.Pairwise (fun a b => key a ≤ key b) (insertByKey key x l) := by
  induction l with
  | nil => simp [insertByKey]
  | cons y rest ih =>
    rw [List.pairwise_cons] at h
    unfold insertByKey
    split
    · rename_i hxy
      rw [List.pairwise_cons]
      refine ⟨?_, List.pairwise_cons.mpr h⟩
      intro b hb
      rcases List.mem_cons.mp hb with rfl | hb
      · exact hxy
      · exact Nat.le_trans hxy (h.1 b hb)
    · rename_i hxy
      rw [List.pairwise_cons]
      refine ⟨?_, ih h.2⟩
      intro b hb
      rcases List.mem_cons.mp ((insertByKey_perm key x rest).mem_iff.mp hb) with rfl | hb
      · omega
      · exact h.1 b hb

theorem sortByKey_pairwise {γ : Type} (key : γ → Nat) (l : List γ) :
    List.Pairwise (fun a b => key a ≤ key b) (sortByKey key l) := by
  induction l with
  | nil => simp [sortByKey]
  | cons x rest ih => exact insertByKey_pairwise key x _ ih

/-- `update_inscription_location` touches no field outside the six tables:
flotsam, reward, lost_sats, height, timestamp, value_receiver, value_cache
and outpoint_to_value survive unchanged whatever the origin. -/
theorem update_scalars (u : InscriptionUpdater) (isr : Option (List (Nat × Nat)))
    (fl : Flotsam) (nsp : SatPoint) :
    (u.update_inscription_location isr fl nsp).flotsam = u.flotsam ∧
    (u.update_inscription_location isr fl nsp).reward = u.reward ∧
    (u.update_inscription_location isr fl nsp).lost_sats = u.lost_sats ∧
    (u.update_inscription_location isr fl nsp).height = u.height ∧
    (u.update_inscription_location isr fl nsp).timestamp = u.timestamp ∧
    (u.update_inscription_location isr fl nsp).value_cache = u.value_cache ∧
    (u.update_inscription_location isr fl nsp).value_receiver = u.value_receiver ∧
    (u.update_inscription_location isr fl nsp).outpoint_to_value =
      u.outpoint_to_value := by
  cases horigin : fl.origin with
  | New fee =>
    obtain ⟨-, -, -, -, -, h1, h2, h3, h4, h5, h6, h7, h8⟩ :=
      update_new_fields u isr fl nsp fee horigin
    exact ⟨h1, h2, h3, h4, h8, h5, h6, h7⟩
  | Old osp =>
    obtain ⟨-, -, -, -, -, -, h1, h2, h3, h4, h5, h6, h7, h8⟩ :=
      update_old_fields u isr fl nsp osp horigin
    exact ⟨h1, h2, h3, h4, h8, h5, h6, h7⟩

theorem peelLoop_scalars (txid : Txid) (vout : Nat)
    (isr : Option (List (Nat × Nat))) (output_value : Nat) :
    ∀ (fls : List Flotsam) (u : InscriptionUpdater)
      (moves : List (InscriptionId × SatPoint)),
    (InscriptionUpdater.peelLoop txid vout isr output_value u fls moves).1.flotsam =
      u.flotsam ∧
    (InscriptionUpdater.peelLoop txid vout isr output_value u fls moves).1.reward =
      u.reward ∧
    (InscriptionUpdater.peelLoop txid vout isr output_value u fls moves).1.lost_sats =
      u.lost_sats ∧
    (InscriptionUpdater.peelLoop txid vout isr output_value u fls moves).1.height =
      u.height := by
  intro fls
  induction fls with
  | nil => intro u moves; exact ⟨rfl, rfl, rfl, rfl⟩
  | cons f rest ih =>
    intro u moves
    obtain ⟨s1, s2, s3, s4, -⟩ := update_scalars u isr f ⟨⟨txid, vout⟩, f.offset - output_value⟩
    have := ih (u.update_inscription_location isr f ⟨⟨txid, vout⟩, f.offset - output_value⟩)
      (moves ++ [(f.inscription_id, ⟨⟨txid, vout⟩, f.offset - output_value⟩)])
    unfold InscriptionUpdater.peelLoop
    exact ⟨this.1.trans s1, this.2.1.trans s2, this.2.2.1.trans s3, this.2.2.2.trans s4⟩

theorem outputLoop_scalars (txid : Txid) (isr : Option (List (Nat × Nat))) :
    ∀ (outs : List (Nat × TxOut)) (u : InscriptionUpdater) (base : Nat)
      (fls : List Flotsam) (moves : List (InscriptionId × SatPoint)),
    (InscriptionUpdater.outputLoop txid isr u outs base fls moves).1.flotsam =
      u.flotsam ∧
    (InscriptionUpdater.outputLoop txid isr u outs base fls moves).1.reward =
      u.reward ∧
    (InscriptionUpdater.outputLoop txid isr u outs base fls moves).1.lost_sats =
      u.lost_sats ∧
    (InscriptionUpdater.outputLoop txid isr u outs base fls moves).1.height =
      u.height := by
  intro outs
  induction outs with
  | nil => intro u base fls moves; exact ⟨rfl, rfl, rfl, rfl⟩
  | cons p rest ih =>
    intro u base fls moves
    obtain ⟨vout, tx_out⟩ := p
    obtain ⟨p1, p2, p3, p4⟩ := peelLoop_scalars txid vout isr base
      (fls.takeWhile (fun f => decide (f.offset < base + tx_out.value))) u moves
    have hrec := ih
      { (InscriptionUpdater.peelLoop txid vout isr base u
          (fls.takeWhile (fun f => decide (f.offset < base + tx_out.value))) moves).1 with
        value_cache := (InscriptionUpdater.peelLoop txid vout isr base u
          (fls.takeWhile (fun f => decide (f.offset < base + tx_out.value))) moves).1.value_cache.insert
            ⟨txid, vout⟩ tx_out.value }
      (base + tx_out.value)
      (fls.dropWhile (fun f => decide (f.offset < base + tx_out.value)))
      (InscriptionUpdater.peelLoop txid vout isr base u
        (fls.takeWhile (fun f => decide (f.offset < base + tx_out.value))) moves).2
    unfold InscriptionUpdater.outputLoop
    exact ⟨hrec.1.trans p1, hrec.2.1.trans p2, hrec.2.2.1.trans p3, hrec.2.2.2.trans p4⟩

theorem outputLoop_output_value (txid : Txid) (isr : Option (List (Nat × Nat))) :
    ∀ (outs : List (Nat × TxOut)) (u : InscriptionUpdater) (base : Nat)
      (fls : List Flotsam) (moves : List (InscriptionId × SatPoint)),
    (InscriptionUpdater.outputLoop txid isr u outs base fls moves).2.1 =
      base + (outs.map (fun p => p.2.value)).sum := by
  intro outs
  induction outs with
  | nil => intro u base fls moves; simp [InscriptionUpdater.outputLoop]
  | cons p rest ih =>
    intro u base fls moves
    obtain ⟨vout, tx_out⟩ := p
    unfold InscriptionUpdater.outputLoop
    rw [ih]
    simp only [List.map_cons, List.sum_cons]
    omega

theorem dropWhile_lower_bound (endv : Nat) :
    ∀ (fls : List Flotsam),
    List.Pairwise (fun a b => a.offset ≤ b.offset) fls →
    ∀ f ∈ fls.dropWhile (fun f => decide (f.offset < endv)), endv ≤ f.offset := by
  intro fls
  induction fls with
  | nil => intro _ f hf; simp at hf
  | cons g rest ih =>
    intro hp f hf
    rw [List.dropWhile_cons] at hf
    split at hf
    · exact ih (List.pairwise_cons.mp hp).2 f hf
    · rename_i hg
      rcases List.mem_cons.mp hf with rfl | hf
      · simp at hg; omega
      · have := (List.pairwise_cons.mp hp).1 f hf
        simp at hg; omega

theorem outputLoop_leftover (txid : Txid) (isr : Option (List (Nat × Nat))) :
    ∀ (outs : List (Nat × TxOut)) (u : InscriptionUpdater) (base : Nat)
      (fls : List Flotsam) (moves : List (InscriptionId × SatPoint)),
    List.Pairwise (fun a b => a.offset ≤ b.offset) fls →
    (∀ f ∈ fls, base ≤ f.offset) →
    (InscriptionUpdater.outputLoop txid isr u outs base fls moves).2.2.1 =
      fls.filter (fun f =>
        decide (base + (outs.map (fun p => p.2.value)).sum ≤ f.offset)) := by
  intro outs
  induction outs with
  | nil =>
    intro u base fls moves hsort hbase
    unfold InscriptionUpdater.outputLoop
    simp only [List.map_nil, List.sum_nil, Nat.add_zero]
    exact (List.filter_eq_self.mpr (fun a ha => by simpa using hbase a ha)).symm
  | cons p rest ih =>
    intro u base fls moves hsort hbase
    obtain ⟨vout, tx_out⟩ := p
    have hsort' : List.Pairwise (fun a b => a.offset ≤ b.offset)
        (fls.dropWhile (fun f => decide (f.offset < base + tx_out.value))) :=
      hsort.sublist (List.dropWhile_sublist _)
    have hbound := dropWhile_lower_bound (base + tx_out.value) fls hsort
    simp only [InscriptionUpdater.outputLoop]
    rw [ih _ (base + tx_out.value) _ _ hsort' hbound]
    simp only [List.map_cons, List.sum_cons, ← Nat.add_assoc]
    conv_rhs => rw [← List.takeWhile_append_dropWhile
      (p := fun f => decide (f.offset < base + tx_out.value)) (l := fls)]
    rw [List.filter_append]
    have h1 : (fls.takeWhile (fun f => decide (f.offset < base + tx_out.value))).filter
        (fun f => decide (base + tx_out.value +
          (rest.map (fun p => p.2.value)).sum ≤ f.offset)) = [] := by
      rw [List.filter_eq_nil]
      intro f hf
      have := List.mem_takeWhile_imp hf
      simp only [decide_eq_true_eq] at this ⊢
      omega
    rw [h1, List.nil_append]

/-! ### Claim C3: fee-spent flotsam carried forward to the coinbase -/

/-- C3: in a non-coinbase transaction, exactly the flotsam whose offsets lie
at or beyond the sum of the outputs' values are appended to the updater's
coinbase carry list, each with its offset rewritten to
`reward + (offset - total_output_value)` using the reward accumulated so
far; afterwards the reward grows by the transaction's fee
(`input_value - total_output_value`); and the reward starts at the height's
subsidy when the updater is constructed. -/
theorem fee_flotsam_carried_to_coinbase
    (u : InscriptionUpdater) (tx : Transaction) (txid : Txid)
    (isr : Option (List (Nat × Nat))) (input_value : Nat)
    (carried sorted : List Flotsam) (u1 : InscriptionUpdater)
    (z : Nat) (moves : List (InscriptionId × SatPoint)) (u' : InscriptionUpdater)
    (height lost_sats timestamp : Nat) (id_to_satpoint : Tbl InscriptionId SatPoint)
    (value_receiver : List Nat) (id_to_entry : Tbl InscriptionId InscriptionEntry)
    (number_to_id : Tbl Nat InscriptionId)
    (outpoint_to_value value_cache : Tbl OutPoint Nat)
    (sat_to_inscription_id : Tbl Nat InscriptionId)
    (satpoint_to_id : Tbl SatPoint InscriptionId)
    (hinp : u.inputLoop tx.input 0 [] = some (input_value, carried, u1))
    (hncb : (tx.input.head?.map (fun txin => txin.previous_output.is_null)).getD false
      = false)
    (hsorted : sorted = sortByKey Flotsam.offset
      (if carried.all (fun f => decide (f.offset ≠ 0))
          && (Inscription.from_transaction tx).isSome
        then carried ++ [⟨txid, 0,
          Origin.New (input_value - (tx.output.map TxOut.value).sum)⟩]
        else carried))
    (hrun : u.index_transaction_inscriptions tx txid isr = some (z, moves, u')) :
    z = 0 ∧
    u'.flotsam = u1.flotsam ++
      (sorted.filter (fun f =>
          decide ((tx.output.map TxOut.value).sum ≤ f.offset))).map
        (fun f => { f with offset :=
          u1.reward + f.offset - (tx.output.map TxOut.value).sum }) ∧
    u'.reward = u1.reward + (input_value - (tx.output.map TxOut.value).sum) ∧
    (InscriptionUpdater.new height id_to_satpoint value_receiver id_to_entry
        lost_sats number_to_id outpoint_to_value sat_to_inscription_id
        satpoint_to_id timestamp value_cache).reward = Height.subsidy height := by
  subst hsorted
  rw [InscriptionUpdater.index_transaction_inscriptions, hinp] at hrun
  simp only [hncb, Bool.false_eq_true, if_false] at hrun
  injection hrun with h1
  injection h1 with hz h2
  injection h2 with hmv hu
  have hsc := outputLoop_scalars txid isr tx.output.enum u1 0
    (sortByKey Flotsam.offset
      (if carried.all (fun f => decide (f.offset ≠ 0))
          && (Inscription.from_transaction tx).isSome
        then carried ++ [⟨txid, 0,
          Origin.New (input_value - (tx.output.map TxOut.value).sum)⟩]
        else carried)) []
  have hov := outputLoop_output_value txid isr tx.output.enum u1 0
    (sortByKey Flotsam.offset
      (if carried.all (fun f => decide (f.offset ≠ 0))
          && (Inscription.from_transaction tx).isSome
        then carried ++ [⟨txid, 0,
          Origin.New (input_value - (tx.output.map TxOut.value).sum)⟩]
        else carried)) []
  have hlf := outputLoop_leftover txid isr tx.output.enum u1 0
    (sortByKey Flotsam.offset
      (if carried.all (fun f => decide (f.offset ≠ 0))
          && (Inscription.from_transaction tx).isSome
        then carried ++ [⟨txid, 0,
          Origin.New (input_value - (tx.output.map TxOut.value).sum)⟩]
        else carried)) []
    (sortByKey_pairwise Flotsam.offset _) (fun f _ => Nat.zero_le _)
  have henum : (tx.output.enum.map (fun p => p.2.value)).sum =
      (tx.output.map TxOut.value).sum := by
    rw [show (fun p : Nat × TxOut => p.2.value) =
      (TxOut.value ∘ Prod.snd) from rfl, ← List.map_map, List.enum_map_snd]
  refine ⟨hz.symm, ?_, ?_, ?_⟩
  · rw [← hu]
    simp only [hlf, hov, hsc.1, hsc.2.1, henum, Nat.zero_add]
  · rw [← hu]
    simp only [hov, hsc.2.1, henum, Nat.zero_add]
  · simp [InscriptionUpdater.new]

/-- Witness for C3: spending a 10-sat outpoint carrying an inscription at
offset 7 into a single 4-sat output (fee 6) leaves the flotsam past the
outputs; it is carried to the coinbase list at offset
`reward + (7 - 4) = 53` and the reward grows from 50 by the fee to 56. -/
theorem fee_flotsam_carried_to_coinbase_witness :
    ∃ z moves u',
      InscriptionUpdater.index_transaction_inscriptions
        ⟨[], 4, ⟨[(5, ⟨⟨1, 0⟩, 7⟩)]⟩, [], ⟨[]⟩, 0, 0, ⟨[]⟩, ⟨[(⟨1, 0⟩, 10)]⟩, 50,
          ⟨[]⟩, ⟨[(⟨⟨1, 0⟩, 7⟩, 5)]⟩, 0, ⟨[]⟩⟩
        ⟨[⟨⟨1, 0⟩, false⟩], [⟨4⟩]⟩ 9 none = some (z, moves, u') ∧
      z = 0 ∧
      u'.flotsam = [⟨5, 53, Origin.Old ⟨⟨1, 0⟩, 7⟩⟩] ∧
      u'.reward = 56 := by
  rcases hres : InscriptionUpdater.index_transaction_inscriptions
      ⟨[], 4, ⟨[(5, ⟨⟨1, 0⟩, 7⟩)]⟩, [], ⟨[]⟩, 0, 0, ⟨[]⟩, ⟨[(⟨1, 0⟩, 10)]⟩, 50,
        ⟨[]⟩, ⟨[(⟨⟨1, 0⟩, 7⟩, 5)]⟩, 0, ⟨[]⟩⟩
      ⟨[⟨⟨1, 0⟩, false⟩], [⟨4⟩]⟩ 9 none with _ | res
  · exact absurd hres (by decide)
  · obtain ⟨z, moves, u'⟩ := res
    have h := fee_flotsam_carried_to_coinbase
      ⟨[], 4, ⟨[(5, ⟨⟨1, 0⟩, 7⟩)]⟩, [], ⟨[]⟩, 0, 0, ⟨[]⟩, ⟨[(⟨1, 0⟩, 10)]⟩, 50,
        ⟨[]⟩, ⟨[(⟨⟨1, 0⟩, 7⟩, 5)]⟩, 0, ⟨[]⟩⟩
      ⟨[⟨⟨1, 0⟩, false⟩], [⟨4⟩]⟩ 9 none 10
      [⟨5, 7, Origin.Old ⟨⟨1, 0⟩, 7⟩⟩]
      (sortByKey Flotsam.offset
        (if ([⟨5, 7, Origin.Old ⟨⟨1, 0⟩, 7⟩⟩] : List Flotsam).all
              (fun f => decide (f.offset ≠ 0))
            && (Inscription.from_transaction ⟨[⟨⟨1, 0⟩, false⟩], [⟨4⟩]⟩).isSome
          then [⟨5, 7, Origin.Old ⟨⟨1, 0⟩, 7⟩⟩] ++ [⟨9, 0,
            Origin.New (10 - (([⟨4⟩] : List TxOut).map TxOut.value).sum)⟩]
          else [⟨5, 7, Origin.Old ⟨⟨1, 0⟩, 7⟩⟩]))
      ⟨[], 4, ⟨[(5, ⟨⟨1, 0⟩, 7⟩)]⟩, [], ⟨[]⟩, 0, 0, ⟨[]⟩, ⟨[]⟩, 50,
        ⟨[]⟩, ⟨[(⟨⟨1, 0⟩, 7⟩, 5)]⟩, 0, ⟨[]⟩⟩
      z moves u' 0 0 0 ⟨[]⟩ [] ⟨[]⟩ ⟨[]⟩ ⟨[]⟩ ⟨[]⟩ ⟨[]⟩ ⟨[]⟩
      (by decide) rfl rfl hres
    refine ⟨z, moves, u', rfl, h.1, ?_, ?_⟩
    · rw [h.2.1]
      decide
    · rw [h.2.2.1]
      decide

theorem update_tracks_new_satpoint (u : InscriptionUpdater)
    (isr : Option (List (Nat × Nat))) (fl : Flotsam) (nsp : SatPoint) :
    (u.update_inscription_location isr fl nsp).satpoint_to_id.get nsp =
      some fl.inscription_id ∧
    (u.update_inscription_location isr fl nsp).id_to_satpoint.get fl.inscription_id =
      some nsp := by
  cases horigin : fl.origin with
  | New fee =>
    obtain ⟨-, -, -, ht2, ht1, -⟩ := update_new_fields u isr fl nsp fee horigin
    rw [ht1, ht2]
    exact ⟨Tbl.get_insert_self _ _ _, Tbl.get_insert_self _ _ _⟩
  | Old osp =>
    obtain ⟨-, -, -, -, ht2, ht1, -⟩ := update_old_fields u isr fl nsp osp horigin
    rw [ht1, ht2]
    exact ⟨Tbl.get_insert_self _ _ _, Tbl.get_insert_self _ _ _⟩

theorem lostLoop_scalars (isr : Option (List (Nat × Nat))) (output_value : Nat) :
    ∀ (fls : List Flotsam) (u : InscriptionUpdater),
    (InscriptionUpdater.lostLoop isr output_value u fls).reward = u.reward ∧
    (InscriptionUpdater.lostLoop isr output_value u fls).lost_sats = u.lost_sats := by
  intro fls
  induction fls with
  | nil => intro u; exact ⟨rfl, rfl⟩
  | cons f rest ih =>
    intro u
    obtain ⟨-, s2, s3, -⟩ := update_scalars u isr f
      ⟨OutPoint.null, u.lost_sats + f.offset - output_value⟩
    have := ih (u.update_inscription_location isr f
      ⟨OutPoint.null, u.lost_sats + f.offset - output_value⟩)
    unfold InscriptionUpdater.lostLoop
    exact ⟨this.1.trans s2, this.2.trans s3⟩
/-- `lostLoop` leaves a satpoint key and an inscription-id key untouched
when no flotsam in the list is assigned that satpoint, carries it as an old
satpoint, or bears that id. -/
theorem lostLoop_preserves_keys (isr : Option (List (Nat × Nat))) (ov : Nat) :
    ∀ (L : List Flotsam) (u : InscriptionUpdater) (ls : Nat),
    u.lost_sats = ls →
    ∀ (k : SatPoint) (id : InscriptionId),
    (∀ g ∈ L, (⟨OutPoint.null, ls + g.offset - ov⟩ : SatPoint) ≠ k) →
    (∀ g ∈ L, ∀ osp, g.origin = Origin.Old osp → osp ≠ k) →
    (∀ g ∈ L, g.inscription_id ≠ id) →
    (InscriptionUpdater.lostLoop isr ov u L).satpoint_to_id.get k =
      u.satpoint_to_id.get k ∧
    (InscriptionUpdater.lostLoop isr ov u L).id_to_satpoint.get id =
      u.id_to_satpoint.get id := by
  intro L
  induction L with
  | nil => intro u ls _ k id _ _ _; exact ⟨rfl, rfl⟩
  | cons g rest ih =>
    intro u ls hlseq k id hnsp hosps hid
    subst hlseq
    have hls1 : (u.update_inscription_location isr g
        ⟨OutPoint.null, u.lost_sats + g.offset - ov⟩).lost_sats = u.lost_sats :=
      (update_scalars u isr g ⟨OutPoint.null, u.lost_sats + g.offset - ov⟩).2.2.1
    have hstep1 : (u.update_inscription_location isr g
        ⟨OutPoint.null, u.lost_sats + g.offset - ov⟩).satpoint_to_id.get k =
        u.satpoint_to_id.get k := by
      cases horigin : g.origin with
      | New fee =>
        obtain ⟨-, -, -, ht2, -⟩ := update_new_fields u isr g
          ⟨OutPoint.null, u.lost_sats + g.offset - ov⟩ fee horigin
        rw [ht2, Tbl.get_insert_ne _ _
          (Ne.symm (hnsp g (List.mem_cons_self g rest)))]
      | Old osp =>
        obtain ⟨-, -, -, -, ht2, -⟩ := update_old_fields u isr g
          ⟨OutPoint.null, u.lost_sats + g.offset - ov⟩ osp horigin
        rw [ht2, Tbl.get_insert_ne _ _
          (Ne.symm (hnsp g (List.mem_cons_self g rest))),
          Tbl.get_removeKey_ne _
          (Ne.symm (hosps g (List.mem_cons_self g rest) osp horigin))]
    have hstep2 : (u.update_inscription_location isr g
        ⟨OutPoint.null, u.lost_sats + g.offset - ov⟩).id_to_satpoint.get id =
        u.id_to_satpoint.get id := by
      cases horigin : g.origin with
      | New fee =>
        obtain ⟨-, -, -, -, ht1, -⟩ := update_new_fields u isr g
          ⟨OutPoint.null, u.lost_sats + g.offset - ov⟩ fee horigin
        rw [ht1, Tbl.get_insert_ne _ _
          (Ne.symm (hid g (List.mem_cons_self g rest)))]
      | Old osp =>
        obtain ⟨-, -, -, -, -, ht1, -⟩ := update_old_fields u isr g
          ⟨OutPoint.null, u.lost_sats + g.offset - ov⟩ osp horigin
        rw [ht1, Tbl.get_insert_ne _ _
          (Ne.symm (hid g (List.mem_cons_self g rest)))]
    have hrec := ih (u.update_inscription_location isr g
        ⟨OutPoint.null, u.lost_sats + g.offset - ov⟩) u.lost_sats hls1 k id
      (fun h hm => hnsp h (List.mem_cons_of_mem g hm))
      (fun h hm osp hosp => hosps h (List.mem_cons_of_mem g hm) osp hosp)
      (fun h hm => hid h (List.mem_cons_of_mem g hm))
    unfold InscriptionUpdater.lostLoop
    exact ⟨hrec.1.trans hstep1, hrec.2.trans hstep2⟩

/-- Every flotsam processed by `lostLoop` ends up tracked at
`(null outpoint, lost_sats + offset - output_value)` in both location
tables, provided the assigned satpoints are pairwise distinct, the
inscription ids are pairwise distinct, and no old satpoint collides with an
assigned one. -/
theorem lostLoop_assigns (isr : Option (List (Nat × Nat))) (ov : Nat) :
    ∀ (L : List Flotsam) (u : InscriptionUpdater) (ls : Nat),
    u.lost_sats = ls →
    (L.map Flotsam.inscription_id).Nodup →
    (L.map (fun f => ls + f.offset - ov)).Nodup →
    (∀ f ∈ L, ∀ g ∈ L, ∀ osp, g.origin = Origin.Old osp →
      osp ≠ ⟨OutPoint.null, ls + f.offset - ov⟩) →
    ∀ f ∈ L,
      (InscriptionUpdater.lostLoop isr ov u L).satpoint_to_id.get
        ⟨OutPoint.null, ls + f.offset - ov⟩ = some f.inscription_id ∧
      (InscriptionUpdater.lostLoop isr ov u L).id_to_satpoint.get
        f.inscription_id = some ⟨OutPoint.null, ls + f.offset - ov⟩ := by
  intro L
  induction L with
  | nil => intro u ls _ _ _ _ f hf; simp at hf
  | cons g rest ih =>
    intro u ls hlseq hids hoffs holds f hf
    subst hlseq
    simp only [List.map_cons, List.nodup_cons] at hids hoffs
    have hls1 : (u.update_inscription_location isr g
        ⟨OutPoint.null, u.lost_sats + g.offset - ov⟩).lost_sats = u.lost_sats :=
      (update_scalars u isr g ⟨OutPoint.null, u.lost_sats + g.offset - ov⟩).2.2.1
    rcases List.mem_cons.mp hf with rfl | hf
    · have htr := update_tracks_new_satpoint u isr f
        ⟨OutPoint.null, u.lost_sats + f.offset - ov⟩
      have hpres := lostLoop_preserves_keys isr ov rest
        (u.update_inscription_location isr f
          ⟨OutPoint.null, u.lost_sats + f.offset - ov⟩) u.lost_sats hls1
        ⟨OutPoint.null, u.lost_sats + f.offset - ov⟩ f.inscription_id
        (fun h hm heq => by
          apply hoffs.1
          refine List.mem_map.mpr ⟨h, hm, ?_⟩
          injection heq with hoeq hofeq)
        (fun h hm osp hosp => holds f (List.mem_cons_self f rest) h
          (List.mem_cons_of_mem f hm) osp hosp)
        (fun h hm heq => hids.1 (List.mem_map.mpr ⟨h, hm, heq⟩))
      unfold InscriptionUpdater.lostLoop
      exact ⟨hpres.1.trans htr.1, hpres.2.trans htr.2⟩
    · have hrec := ih (u.update_inscription_location isr g
          ⟨OutPoint.null, u.lost_sats + g.offset - ov⟩) u.lost_sats hls1
        hids.2 hoffs.2
        (fun f' hf' g' hg' osp hosp => holds f' (List.mem_cons_of_mem g hf')
          g' (List.mem_cons_of_mem g hg') osp hosp)
        f hf
      unfold InscriptionUpdater.lostLoop
      exact hrec

/-! ### Claim C4: coinbase spillover is parked at the null outpoint -/

/-- C4: in the coinbase transaction, each flotsam whose offset spills past
the total coinbase output value is assigned the satpoint
`(null outpoint, lost_sats + offset - total_output_value)` in both location
tables, and the function returns the spilled amount
`reward - total_output_value` for the caller to advance `lost_sats` by.
The uniqueness hypotheses (pairwise distinct assigned satpoints and ids, no
old satpoint colliding with an assigned one) hold in every real state:
distinct inscriptions occupy distinct sats. -/
theorem coinbase_spill_lost
    (u : InscriptionUpdater) (tx : Transaction) (txid : Txid)
    (isr : Option (List (Nat × Nat))) (input_value : Nat)
    (carried L : List Flotsam) (u1 : InscriptionUpdater)
    (z : Nat) (moves : List (InscriptionId × SatPoint)) (u' : InscriptionUpdater)
    (hinp : u.inputLoop tx.input 0 [] = some (input_value, carried, u1))
    (hcb : (tx.input.head?.map (fun txin => txin.previous_output.is_null)).getD false
      = true)
    (hrun : u.index_transaction_inscriptions tx txid isr = some (z, moves, u'))
    (hleft : (sortByKey Flotsam.offset
        ((if carried.all (fun f => decide (f.offset ≠ 0))
            && (Inscription.from_transaction tx).isSome
          then carried ++ [⟨txid, 0,
            Origin.New (input_value - (tx.output.map TxOut.value).sum)⟩]
          else carried) ++ u1.flotsam)).filter
        (fun f => decide ((tx.output.map TxOut.value).sum ≤ f.offset)) = L)
    (hids : (L.map Flotsam.inscription_id).Nodup)
    (hoffs : (L.map (fun f =>
      u1.lost_sats + f.offset - (tx.output.map TxOut.value).sum)).Nodup)
    (holds : ∀ f ∈ L, ∀ g ∈ L, ∀ osp, g.origin = Origin.Old osp →
      osp ≠ ⟨OutPoint.null,
        u1.lost_sats + f.offset - (tx.output.map TxOut.value).sum⟩) :
    z = u1.reward - (tx.output.map TxOut.value).sum ∧
    ∀ f ∈ L,
      u'.satpoint_to_id.get
          ⟨OutPoint.null,
            u1.lost_sats + f.offset - (tx.output.map TxOut.value).sum⟩ =
        some f.inscription_id ∧
      u'.id_to_satpoint.get f.inscription_id =
        some ⟨OutPoint.null,
          u1.lost_sats + f.offset - (tx.output.map TxOut.value).sum⟩ := by
  rw [InscriptionUpdater.index_transaction_inscriptions, hinp] at hrun
  simp only [hcb, if_true] at hrun
  injection hrun with h1
  injection h1 with hz h2
  injection h2 with hmv hu
  have hsc := outputLoop_scalars txid isr tx.output.enum
    { u1 with flotsam := [] } 0
    (sortByKey Flotsam.offset
      ((if carried.all (fun f => decide (f.offset ≠ 0))
          && (Inscription.from_transaction tx).isSome
        then carried ++ [⟨txid, 0,
          Origin.New (input_value - (tx.output.map TxOut.value).sum)⟩]
        else carried) ++ u1.flotsam)) []
  have hov := outputLoop_output_value txid isr tx.output.enum
    { u1 with flotsam := [] } 0
    (sortByKey Flotsam.offset
      ((if carried.all (fun f => decide (f.offset ≠ 0))
          && (Inscription.from_transaction tx).isSome
        then carried ++ [⟨txid, 0,
          Origin.New (input_value - (tx.output.map TxOut.value).sum)⟩]
        else carried) ++ u1.flotsam)) []
  have hlf := outputLoop_leftover txid isr tx.output.enum
    { u1 with flotsam := [] } 0
    (sortByKey Flotsam.offset
      ((if carried.all (fun f => decide (f.offset ≠ 0))
          && (Inscription.from_transaction tx).isSome
        then carried ++ [⟨txid, 0,
          Origin.New (input_value - (tx.output.map TxOut.value).sum)⟩]
        else carried) ++ u1.flotsam)) []
    (sortByKey_pairwise Flotsam.offset _) (fun f _ => Nat.zero_le _)
  have henum : (tx.output.enum.map (fun p => p.2.value)).sum =
      (tx.output.map TxOut.value).sum := by
    rw [show (fun p : Nat × TxOut => p.2.value) =
      (TxOut.value ∘ Prod.snd) from rfl, ← List.map_map, List.enum_map_snd]
  rw [henum, Nat.zero_add] at hov
  rw [henum, Nat.zero_add, hleft] at hlf
  have hls2 : (InscriptionUpdater.outputLoop txid isr { u1 with flotsam := [] }
      tx.output.enum 0
      (sortByKey Flotsam.offset
        ((if carried.all (fun f => decide (f.offset ≠ 0))
            && (Inscription.from_transaction tx).isSome
          then carried ++ [⟨txid, 0,
            Origin.New (input_value - (tx.output.map TxOut.value).sum)⟩]
          else carried) ++ u1.flotsam)) []).1.lost_sats = u1.lost_sats :=
    hsc.2.2.1
  constructor
  · rw [← hz, hov, hlf]
    rw [(lostLoop_scalars isr ((tx.output.map TxOut.value).sum) L _).1, hsc.2.1]
  · intro f hf
    rw [← hu, hov, hlf]
    exact lostLoop_assigns isr ((tx.output.map TxOut.value).sum) L _
      u1.lost_sats hls2 hids hoffs holds f hf

/-- Witness for C4 with two spilled flotsam, realizing the spec's fee-burn
scenario: an inscription minted with a `50·COIN` fee and a previously
tracked inscription both float into the zero-subsidy block's outputless
coinbase; they are parked at `(null, 0)` and `(null, 3)` and the function
returns the spilled `50·COIN` for the `LostSats` statistic. -/
theorem coinbase_spill_lost_witness :
    ∃ z moves u',
      InscriptionUpdater.index_transaction_inscriptions
        ⟨[⟨7, 0, Origin.New 5000000000⟩, ⟨11, 3, Origin.Old ⟨⟨2, 0⟩, 1⟩⟩],
          6930000, ⟨[]⟩, [], ⟨[]⟩, 0, 0, ⟨[]⟩, ⟨[]⟩, 5000000000, ⟨[]⟩, ⟨[]⟩, 0,
          ⟨[]⟩⟩
        ⟨[⟨OutPoint.null, false⟩], []⟩ 8 none = some (z, moves, u') ∧
      z = 50 * COIN_VALUE ∧
      u'.satpoint_to_id.get ⟨OutPoint.null, 0⟩ = some 7 ∧
      u'.id_to_satpoint.get 7 = some ⟨OutPoint.null, 0⟩ ∧
      u'.satpoint_to_id.get ⟨OutPoint.null, 3⟩ = some 11 ∧
      u'.id_to_satpoint.get 11 = some ⟨OutPoint.null, 3⟩ := by
  rcases hres : InscriptionUpdater.index_transaction_inscriptions
      ⟨[⟨7, 0, Origin.New 5000000000⟩, ⟨11, 3, Origin.Old ⟨⟨2, 0⟩, 1⟩⟩],
        6930000, ⟨[]⟩, [], ⟨[]⟩, 0, 0, ⟨[]⟩, ⟨[]⟩, 5000000000, ⟨[]⟩, ⟨[]⟩, 0,
        ⟨[]⟩⟩
      ⟨[⟨OutPoint.null, false⟩], []⟩ 8 none with _ | res
  · exact absurd hres (by decide)
  · obtain ⟨z, moves, u'⟩ := res
    have h := coinbase_spill_lost
      ⟨[⟨7, 0, Origin.New 5000000000⟩, ⟨11, 3, Origin.Old ⟨⟨2, 0⟩, 1⟩⟩],
        6930000, ⟨[]⟩, [], ⟨[]⟩, 0, 0, ⟨[]⟩, ⟨[]⟩, 5000000000, ⟨[]⟩, ⟨[]⟩, 0,
        ⟨[]⟩⟩
      ⟨[⟨OutPoint.null, false⟩], []⟩ 8 none 0 []
      [⟨7, 0, Origin.New 5000000000⟩, ⟨11, 3, Origin.Old ⟨⟨2, 0⟩, 1⟩⟩]
      ⟨[⟨7, 0, Origin.New 5000000000⟩, ⟨11, 3, Origin.Old ⟨⟨2, 0⟩, 1⟩⟩],
        6930000, ⟨[]⟩, [], ⟨[]⟩, 0, 0, ⟨[]⟩, ⟨[]⟩, 5000000000, ⟨[]⟩, ⟨[]⟩, 0,
        ⟨[]⟩⟩
      z moves u' (by decide) rfl hres (by decide) (by decide) (by decide)
      (by
        intro f hf g hg osp hosp
        rcases List.mem_cons.mp hg with rfl | hg
        · cases hosp
        · rcases List.mem_cons.mp hg with rfl | hg
          · cases hosp
            rcases List.mem_cons.mp hf with rfl | hf
            · decide
            · rcases List.mem_cons.mp hf with rfl | hf
              · decide
              · simp at hf
          · simp at hg)
    obtain ⟨k7a, k7b⟩ := h.2 ⟨7, 0, Origin.New 5000000000⟩
      (List.mem_cons_self _ _)
    obtain ⟨k11a, k11b⟩ := h.2 ⟨11, 3, Origin.Old ⟨⟨2, 0⟩, 1⟩⟩
      (List.mem_cons_of_mem _ (List.mem_cons_self _ _))
    exact ⟨z, moves, u', rfl, by rw [h.1]; decide, k7a, k7b, k11a, k11b⟩

/-! ### Claim C2 helper lemmas -/

/-- Every flotsam gathered by the input loop is `Origin::Old` (inscriptions
already tracked on spent outpoints). -/
theorem inputLoop_origins :
    ∀ (inputs : List TxIn) (u : InscriptionUpdater) (iv : Nat) (fls : List Flotsam)
      (iv' : Nat) (fls' : List Flotsam) (u' : InscriptionUpdater),
    (∀ f ∈ fls, ∃ osp, f.origin = Origin.Old osp) →
    InscriptionUpdater.inputLoop u inputs iv fls = some (iv', fls', u') →
    ∀ f ∈ fls', ∃ osp, f.origin = Origin.Old osp := by
  intro inputs
  induction inputs with
  | nil =>
    intro u iv fls iv' fls' u' hfls hrun
    unfold InscriptionUpdater.inputLoop at hrun
    injection hrun with h1
    injection h1 with h2 h3
    injection h3 with h4 h5
    exact h4 ▸ hfls
  | cons txin rest ih =>
    intro u iv fls iv' fls' u' hfls hrun
    unfold InscriptionUpdater.inputLoop at hrun
    have hext : ∀ f ∈ fls ++
        (Index.inscriptions_on_output u.satpoint_to_id txin.previous_output).map
          (fun q => ({ offset := iv + q.1.offset, inscription_id := q.2,
                       origin := Origin.Old q.1 } : Flotsam)),
        ∃ osp, f.origin = Origin.Old osp := by
      intro f hf
      rcases List.mem_append.mp hf with hf | hf
      · exact hfls f hf
      · rcases List.mem_map.mp hf with ⟨q, -, rfl⟩
        exact ⟨q.1, rfl⟩
    split at hrun
    · exact ih u _ fls iv' fls' u' hfls hrun
    · split at hrun
      · exact ih _ _ _ iv' fls' u' hext hrun
      · split at hrun
        · exact ih _ _ _ iv' fls' u' hext hrun
        · split at hrun
          · exact absurd hrun (by simp)
          · exact ih _ _ _ iv' fls' u' hext hrun

/-- An `Origin::Old` update leaves the entry table untouched; hence a run of
old-only flotsam through `peelLoop` leaves it untouched. -/
theorem peelLoop_entry_old (txid : Txid) (vout : Nat)
    (isr : Option (List (Nat × Nat))) (output_value : Nat) :
    ∀ (fls : List Flotsam) (u : InscriptionUpdater)
      (moves : List (InscriptionId × SatPoint)),
    (∀ f ∈ fls, ∃ osp, f.origin = Origin.Old osp) →
    (InscriptionUpdater.peelLoop txid vout isr output_value u fls moves).1.id_to_entry
      = u.id_to_entry := by
  intro fls
  induction fls with
  | nil => intro u moves _; rfl
  | cons f rest ih =>
    intro u moves hold
    obtain ⟨osp, hosp⟩ := hold f (List.mem_cons_self f rest)
    obtain ⟨-, -, he, -⟩ := update_old_fields u isr f
      ⟨⟨txid, vout⟩, f.offset - output_value⟩ osp hosp
    unfold InscriptionUpdater.peelLoop
    exact (ih _ _ (fun g hg => hold g (List.mem_cons_of_mem f hg))).trans he

theorem outputLoop_entry_old (txid : Txid) (isr : Option (List (Nat × Nat))) :
    ∀ (outs : List (Nat × TxOut)) (u : InscriptionUpdater) (base : Nat)
      (fls : List Flotsam) (moves : List (InscriptionId × SatPoint)),
    (∀ f ∈ fls, ∃ osp, f.origin = Origin.Old osp) →
    (InscriptionUpdater.outputLoop txid isr u outs base fls moves).1.id_to_entry
      = u.id_to_entry := by
  intro outs
  induction outs with
  | nil => intro u base fls moves _; rfl
  | cons p rest ih =>
    intro u base fls moves hold
    obtain ⟨vout, tx_out⟩ := p
    simp only [InscriptionUpdater.outputLoop]
    have htake : ∀ f ∈ fls.takeWhile (fun f => decide (f.offset < base + tx_out.value)),
        ∃ osp, f.origin = Origin.Old osp :=
      fun f hf => hold f ((List.takeWhile_sublist _).mem hf)
    have hdrop : ∀ f ∈ fls.dropWhile (fun f => decide (f.offset < base + tx_out.value)),
        ∃ osp, f.origin = Origin.Old osp :=
      fun f hf => hold f ((List.dropWhile_sublist _).mem hf)
    exact (ih _ _ _ _ hdrop).trans
      (peelLoop_entry_old txid vout isr base _ u moves htake)

/-- With no flotsam to place, the output loop touches only the value cache. -/
theorem outputLoop_nilfls (txid : Txid) (isr : Option (List (Nat × Nat))) :
    ∀ (outs : List (Nat × TxOut)) (u : InscriptionUpdater) (base : Nat)
      (moves : List (InscriptionId × SatPoint)),
    (InscriptionUpdater.outputLoop txid isr u outs base [] moves).1.id_to_entry
      = u.id_to_entry ∧
    (InscriptionUpdater.outputLoop txid isr u outs base [] moves).1.satpoint_to_id
      = u.satpoint_to_id ∧
    (InscriptionUpdater.outputLoop txid isr u outs base [] moves).1.id_to_satpoint
      = u.id_to_satpoint ∧
    (InscriptionUpdater.outputLoop txid isr u outs base [] moves).2.2.1 = [] := by
  intro outs
  induction outs with
  | nil => intro u base moves; exact ⟨rfl, rfl, rfl, rfl⟩
  | cons p rest ih =>
    intro u base moves
    obtain ⟨vout, tx_out⟩ := p
    simp only [InscriptionUpdater.outputLoop, List.takeWhile_nil, List.dropWhile_nil]
    exact ih _ _ _

/-- Appending a zero-key element to a list of positive keys sorts to the
front. -/
theorem sortByKey_append_zero {γ : Type} (key : γ → Nat) (l : List γ) (x : γ)
    (hx : key x = 0) (hl : ∀ y ∈ l, 0 < key y) :
    sortByKey key (l ++ [x]) = x :: sortByKey key l := by
  induction l with
  | nil => rfl
  | cons y rest ih =>
    rw [List.cons_append]
    show insertByKey key y (sortByKey key (rest ++ [x])) =
      x :: insertByKey key y (sortByKey key rest)
    rw [ih (fun z hz => hl z (List.mem_cons_of_mem y hz))]
    simp only [insertByKey]
    rw [if_neg (by
      rw [hx]
      have := hl y (List.mem_cons_self y rest)
      omega)]

/-- A new inscription at offset 0 entering a first output of positive value
is recorded in the entry table; the old-origin flotsam after it leave the
table alone. -/
theorem outputLoop_entry_new (txid : Txid) (isr : Option (List (Nat × Nat)))
    (out0 : TxOut) (outs' : List (Nat × TxOut)) (u : InscriptionUpdater)
    (newf : Flotsam) (S : List Flotsam) (fee : Nat)
    (moves : List (InscriptionId × SatPoint))
    (hval : 0 < out0.value) (hnew : newf.origin = Origin.New fee)
    (hoff : newf.offset = 0)
    (hS : ∀ f ∈ S, ∃ osp, f.origin = Origin.Old osp) :
    (InscriptionUpdater.outputLoop txid isr u ((0, out0) :: outs') 0 (newf :: S)
        moves).1.id_to_entry
      = u.id_to_entry.insert newf.inscription_id
          ⟨fee, u.height, u.next_number, newSat isr newf.offset, u.timestamp⟩ := by
  simp only [InscriptionUpdater.outputLoop]
  rw [List.takeWhile_cons_of_pos (by simp [hoff]; omega),
    List.dropWhile_cons_of_pos (by simp [hoff]; omega)]
  have hstep : InscriptionUpdater.peelLoop txid 0 isr 0 u
      (newf :: S.takeWhile (fun f => decide (f.offset < 0 + out0.value))) moves =
      InscriptionUpdater.peelLoop txid 0 isr 0
        (u.update_inscription_location isr newf ⟨⟨txid, 0⟩, newf.offset - 0⟩)
        (S.takeWhile (fun f => decide (f.offset < 0 + out0.value)))
        (moves ++ [(newf.inscription_id, ⟨⟨txid, 0⟩, newf.offset - 0⟩)]) := rfl
  obtain ⟨-, -, he, -⟩ := update_new_fields u isr newf ⟨⟨txid, 0⟩, newf.offset - 0⟩
    fee hnew
  rw [outputLoop_entry_old txid isr outs' _ _ _ _
    (fun f hf => hS f ((List.dropWhile_sublist _).mem hf))]
  show (InscriptionUpdater.peelLoop txid 0 isr 0 u
      (newf :: S.takeWhile (fun f => decide (f.offset < 0 + out0.value)))
      moves).1.id_to_entry = _
  rw [hstep, peelLoop_entry_old txid 0 isr 0 _ _ _
    (fun f hf => hS f ((List.takeWhile_sublist _).mem hf)), he]

/-- A lone old-origin flotsam at offset 0 lands at offset 0 of the first
output; both location tables are updated and the entry table is not. -/
theorem outputLoop_single_old (txid : Txid) (isr : Option (List (Nat × Nat)))
    (out0 : TxOut) (outs' : List (Nat × TxOut)) (u : InscriptionUpdater)
    (f0 : Flotsam) (osp : SatPoint) (moves : List (InscriptionId × SatPoint))
    (hval : 0 < out0.value) (hoff : f0.offset = 0)
    (hosp : f0.origin = Origin.Old osp) :
    (InscriptionUpdater.outputLoop txid isr u ((0, out0) :: outs') 0 [f0]
        moves).1.satpoint_to_id
      = (u.satpoint_to_id.removeKey osp).insert ⟨⟨txid, 0⟩, f0.offset - 0⟩
          f0.inscription_id ∧
    (InscriptionUpdater.outputLoop txid isr u ((0, out0) :: outs') 0 [f0]
        moves).1.id_to_satpoint
      = u.id_to_satpoint.insert f0.inscription_id ⟨⟨txid, 0⟩, f0.offset - 0⟩ ∧
    (InscriptionUpdater.outputLoop txid isr u ((0, out0) :: outs') 0 [f0]
        moves).1.id_to_entry = u.id_to_entry := by
  simp only [InscriptionUpdater.outputLoop]
  rw [show ([f0].takeWhile (fun f => decide (f.offset < 0 + out0.value))) = [f0] from
      List.takeWhile_cons_of_pos (by simp [hoff]; omega),
    show ([f0].dropWhile (fun f => decide (f.offset < 0 + out0.value))) = [] from
      List.dropWhile_cons_of_pos (by simp [hoff]; omega)]
  obtain ⟨-, -, he, -, ht2, ht1, -⟩ := update_old_fields u isr f0
    ⟨⟨txid, 0⟩, f0.offset - 0⟩ osp hosp
  obtain ⟨hn1, hn2, hn3, -⟩ := outputLoop_nilfls txid isr outs'
    { (InscriptionUpdater.peelLoop txid 0 isr 0 u [f0] moves).1 with
      value_cache := (InscriptionUpdater.peelLoop txid 0 isr 0 u [f0]
        moves).1.value_cache.insert ⟨txid, 0⟩ out0.value }
    (0 + out0.value) (InscriptionUpdater.peelLoop txid 0 isr 0 u [f0] moves).2
  refine ⟨?_, ?_, ?_⟩
  · rw [hn2]
    show (InscriptionUpdater.peelLoop txid 0 isr 0
      (u.update_inscription_location isr f0 ⟨⟨txid, 0⟩, f0.offset - 0⟩) []
      (moves ++ [(f0.inscription_id, ⟨⟨txid, 0⟩, f0.offset - 0⟩)])).1.satpoint_to_id = _
    exact ht2
  · rw [hn3]
    show (InscriptionUpdater.peelLoop txid 0 isr 0
      (u.update_inscription_location isr f0 ⟨⟨txid, 0⟩, f0.offset - 0⟩) []
      (moves ++ [(f0.inscription_id, ⟨⟨txid, 0⟩, f0.offset - 0⟩)])).1.id_to_satpoint = _
    exact ht1
  · rw [hn1]
    show (InscriptionUpdater.peelLoop txid 0 isr 0
      (u.update_inscription_location isr f0 ⟨⟨txid, 0⟩, f0.offset - 0⟩) []
      (moves ++ [(f0.inscription_id, ⟨⟨txid, 0⟩, f0.offset - 0⟩)])).1.id_to_entry = _
    exact he

/-! ### Claim C2: a transaction creates a new inscription iff the envelope
parses and no carried-in inscription sits at offset 0 -/

/-- C2: for a non-coinbase transaction whose first output has positive
value and whose id is fresh, an inscription entry for the transaction's id
is created iff `Inscription::from_transaction` parses an envelope and no
flotsam carried in by the inputs sits at offset 0.  When a lone carried
inscription does sit at offset 0, the envelope is ignored:
`get_inscription_entry` on the transaction's id stays `None` and the
original inscription is tracked at offset 0 of the transaction's first
output. -/
theorem new_inscription_created_iff
    (u : InscriptionUpdater) (tx : Transaction) (txid : Txid)
    (isr : Option (List (Nat × Nat))) (input_value : Nat)
    (carried : List Flotsam) (u1 : InscriptionUpdater)
    (z : Nat) (moves : List (InscriptionId × SatPoint)) (u' : InscriptionUpdater)
    (out0 : TxOut) (outs' : List TxOut)
    (hinp : u.inputLoop tx.input 0 [] = some (input_value, carried, u1))
    (hncb : (tx.input.head?.map (fun txin => txin.previous_output.is_null)).getD false
      = false)
    (hrun : u.index_transaction_inscriptions tx txid isr = some (z, moves, u'))
    (hfresh : u1.id_to_entry.get txid = none)
    (hout : tx.output = out0 :: outs') (hval : 0 < out0.value) :
    (Index.get_inscription_entry u'.id_to_entry txid ≠ none ↔
      ((Inscription.from_transaction tx).isSome = true ∧
        carried.all (fun f => decide (f.offset ≠ 0)) = true)) ∧
    (∀ f0, carried = [f0] → f0.offset = 0 →
      Index.get_inscription_entry u'.id_to_entry txid = none ∧
      u'.satpoint_to_id.get ⟨⟨txid, 0⟩, 0⟩ = some f0.inscription_id ∧
      u'.id_to_satpoint.get f0.inscription_id = some ⟨⟨txid, 0⟩, 0⟩) := by
  have hold_carried : ∀ f ∈ carried, ∃ osp, f.origin = Origin.Old osp :=
    inputLoop_origins tx.input u 0 [] input_value carried u1
      (fun f hf => absurd hf (List.not_mem_nil f)) hinp
  rw [InscriptionUpdater.index_transaction_inscriptions, hinp] at hrun
  simp only [hncb, Bool.false_eq_true, if_false] at hrun
  injection hrun with h1
  injection h1 with hz h2
  injection h2 with hmv hu
  unfold Index.get_inscription_entry
  constructor
  · by_cases hcond : ((carried.all fun f => decide (f.offset ≠ 0)) &&
        (Inscription.from_transaction tx).isSome) = true
    · obtain ⟨hall, hsome⟩ := (Bool.and_eq_true _ _).mp hcond
      have hpos : ∀ y ∈ carried, 0 < Flotsam.offset y := by
        intro y hy
        have := List.all_eq_true.mp hall y hy
        simp only [decide_eq_true_eq] at this
        omega
      have hsort : ∀ fee : Nat, sortByKey Flotsam.offset (carried ++
          [⟨txid, 0, Origin.New fee⟩]) =
          (⟨txid, 0, Origin.New fee⟩ : Flotsam) :: sortByKey Flotsam.offset carried :=
        fun fee => sortByKey_append_zero Flotsam.offset carried _ rfl hpos
      constructor
      · intro _
        exact ⟨hsome, hall⟩
      · intro _
        rw [← hu]
        simp only [if_pos hcond, hout, List.enum_cons, hsort]
        rw [outputLoop_entry_new txid isr out0 (outs'.enumFrom 1) u1
          ⟨txid, 0, Origin.New (input_value - ((out0 :: outs').map TxOut.value).sum)⟩
          (sortByKey Flotsam.offset carried) _ [] hval rfl rfl
          (fun f hf => hold_carried f ((sortByKey_perm Flotsam.offset carried).mem_iff.mp hf))]
        rw [Tbl.get_insert_self]
        simp
    · constructor
      · intro hne
        exfalso
        apply hne
        rw [← hu]
        simp only [if_neg hcond]
        rw [outputLoop_entry_old txid isr tx.output.enum u1 0 _ []
          (fun f hf => hold_carried f ((sortByKey_perm Flotsam.offset carried).mem_iff.mp hf))]
        exact hfresh
      · rintro ⟨hsome, hall⟩
        exact absurd (by rw [hall, hsome]; rfl) hcond
  · intro f0 hcar hoff0
    subst hcar
    obtain ⟨osp, hosp⟩ := hold_carried f0 (List.mem_cons_self f0 [])
    have hcf : ¬((([f0] : List Flotsam).all fun f => decide (f.offset ≠ 0)) &&
        (Inscription.from_transaction tx).isSome) = true := by
      simp [List.all_cons, hoff0]
    have hsortone : sortByKey Flotsam.offset [f0] = [f0] := rfl
    obtain ⟨hs2, hs1, hse⟩ := outputLoop_single_old txid isr out0 (outs'.enumFrom 1)
      u1 f0 osp [] hval hoff0 hosp
    refine ⟨?_, ?_, ?_⟩
    · rw [← hu]
      simp only [if_neg hcf, hsortone, hout, List.enum_cons]
      rw [hse]
      exact hfresh
    · rw [← hu]
      simp only [if_neg hcf, hsortone, hout, List.enum_cons]
      rw [hs2]
      simp only [hoff0, Nat.sub_self]
      exact Tbl.get_insert_self _ _ _
    · rw [← hu]
      simp only [if_neg hcf, hsortone, hout, List.enum_cons]
      rw [hs1]
      simp only [hoff0, Nat.sub_self]
      exact Tbl.get_insert_self _ _ _

/-- Witness for C2: spending an outpoint that carries inscription 5 at
offset 0 while presenting a fresh envelope in tx 9 is ignored — no entry
for id 9, and inscription 5 moves to offset 0 of tx 9's first output;
the same transaction with no carried inscription does create an entry. -/
theorem new_inscription_created_iff_witness :
    (∃ z moves u',
      InscriptionUpdater.index_transaction_inscriptions
        ⟨[], 4, ⟨[(5, ⟨⟨1, 0⟩, 0⟩)]⟩, [], ⟨[]⟩, 0, 0, ⟨[]⟩, ⟨[(⟨1, 0⟩, 10)]⟩, 50,
          ⟨[]⟩, ⟨[(⟨⟨1, 0⟩, 0⟩, 5)]⟩, 0, ⟨[]⟩⟩
        ⟨[⟨⟨1, 0⟩, true⟩], [⟨8⟩]⟩ 9 none = some (z, moves, u') ∧
      Index.get_inscription_entry u'.id_to_entry 9 = none ∧
      u'.satpoint_to_id.get ⟨⟨9, 0⟩, 0⟩ = some 5 ∧
      u'.id_to_satpoint.get 5 = some ⟨⟨9, 0⟩, 0⟩) ∧
    (∃ z moves u',
      InscriptionUpdater.index_transaction_inscriptions
        ⟨[], 4, ⟨[]⟩, [], ⟨[]⟩, 0, 0, ⟨[]⟩, ⟨[(⟨1, 0⟩, 10)]⟩, 50,
          ⟨[]⟩, ⟨[]⟩, 0, ⟨[]⟩⟩
        ⟨[⟨⟨1, 0⟩, true⟩], [⟨8⟩]⟩ 9 none = some (z, moves, u') ∧
      Index.get_inscription_entry u'.id_to_entry 9 ≠ none) := by
  constructor
  · rcases hres : InscriptionUpdater.index_transaction_inscriptions
        ⟨[], 4, ⟨[(5, ⟨⟨1, 0⟩, 0⟩)]⟩, [], ⟨[]⟩, 0, 0, ⟨[]⟩, ⟨[(⟨1, 0⟩, 10)]⟩, 50,
          ⟨[]⟩, ⟨[(⟨⟨1, 0⟩, 0⟩, 5)]⟩, 0, ⟨[]⟩⟩
        ⟨[⟨⟨1, 0⟩, true⟩], [⟨8⟩]⟩ 9 none with _ | res
    · exact absurd hres (by decide)
    · obtain ⟨z, moves, u'⟩ := res
      have h := new_inscription_created_iff
        ⟨[], 4, ⟨[(5, ⟨⟨1, 0⟩, 0⟩)]⟩, [], ⟨[]⟩, 0, 0, ⟨[]⟩, ⟨[(⟨1, 0⟩, 10)]⟩, 50,
          ⟨[]⟩, ⟨[(⟨⟨1, 0⟩, 0⟩, 5)]⟩, 0, ⟨[]⟩⟩
        ⟨[⟨⟨1, 0⟩, true⟩], [⟨8⟩]⟩ 9 none 10
        [⟨5, 0, Origin.Old ⟨⟨1, 0⟩, 0⟩⟩]
        ⟨[], 4, ⟨[(5, ⟨⟨1, 0⟩, 0⟩)]⟩, [], ⟨[]⟩, 0, 0, ⟨[]⟩, ⟨[]⟩, 50,
          ⟨[]⟩, ⟨[(⟨⟨1, 0⟩, 0⟩, 5)]⟩, 0, ⟨[]⟩⟩
        z moves u' ⟨8⟩ []
        (by decide) rfl hres (by decide) rfl (by decide)
      obtain ⟨h1, h2, h3⟩ := h.2 ⟨5, 0, Origin.Old ⟨⟨1, 0⟩, 0⟩⟩ rfl rfl
      exact ⟨z, moves, u', rfl, h1, h2, h3⟩
  · rcases hres : InscriptionUpdater.index_transaction_inscriptions
        ⟨[], 4, ⟨[]⟩, [], ⟨[]⟩, 0, 0, ⟨[]⟩, ⟨[(⟨1, 0⟩, 10)]⟩, 50,
          ⟨[]⟩, ⟨[]⟩, 0, ⟨[]⟩⟩
        ⟨[⟨⟨1, 0⟩, true⟩], [⟨8⟩]⟩ 9 none with _ | res
    · exact absurd hres (by decide)
    · obtain ⟨z, moves, u'⟩ := res
      have h := new_inscription_created_iff
        ⟨[], 4, ⟨[]⟩, [], ⟨[]⟩, 0, 0, ⟨[]⟩, ⟨[(⟨1, 0⟩, 10)]⟩, 50,
          ⟨[]⟩, ⟨[]⟩, 0, ⟨[]⟩⟩
        ⟨[⟨⟨1, 0⟩, true⟩], [⟨8⟩]⟩ 9 none 10 []
        ⟨[], 4, ⟨[]⟩, [], ⟨[]⟩, 0, 0, ⟨[]⟩, ⟨[]⟩, 50,
          ⟨[]⟩, ⟨[]⟩, 0, ⟨[]⟩⟩
        z moves u' ⟨8⟩ []
        (by decide) rfl hres (by decide) rfl (by decide)
      exact ⟨z, moves, u', rfl, h.1.mpr ⟨by decide, rfl⟩⟩

/-! ### Claim C6 helper lemmas: characterizing `find` -/

theorem findInRanges_none_iff (sat : Nat) :
    ∀ (ranges : List (Nat × Nat)) (acc : Nat),
    findInRanges sat ranges acc = none ↔
      ∀ r ∈ ranges, ¬(r.1 ≤ sat ∧ sat < r.2) := by
  intro ranges
  induction ranges with
  | nil => intro acc; simp [findInRanges]
  | cons r rest ih =>
    intro acc
    obtain ⟨s, e⟩ := r
    unfold findInRanges
    split
    · rename_i h
      constructor
      · intro h2; simp at h2
      · intro h2
        exact absurd h (by
          have := h2 (s, e) (List.mem_cons_self _ _)
          simpa using this)
    · rename_i h
      rw [ih]
      constructor
      · intro h2 q hq
        rcases List.mem_cons.mp hq with rfl | hq
        · simp only [not_and]
          intro hs
          omega
        · exact h2 q hq
      · intro h2 q hq
        exact h2 q (List.mem_cons_of_mem _ hq)

theorem findLoop_none_iff (sat : Nat) :
    ∀ (rows : List (OutPoint × List Nat)),
    Index.findLoop sat rows = none ↔
      ∀ q ∈ rows, findInRanges sat (decodeRanges q.2) 0 = none := by
  intro rows
  induction rows with
  | nil => simp [Index.findLoop]
  | cons q rest ih =>
    obtain ⟨op, bytes⟩ := q
    unfold Index.findLoop
    split
    · rename_i off hoff
      constructor
      · intro h; simp at h
      · intro h
        have := h (op, bytes) (List.mem_cons_self _ _)
        simp only at this
        rw [this] at hoff
        exact absurd hoff (by simp)
    · rename_i hoff
      rw [ih]
      constructor
      · intro h2 q hq
        rcases List.mem_cons.mp hq with rfl | hq
        · exact hoff
        · exact h2 q hq
      · intro h2 q hq
        exact h2 q (List.mem_cons_of_mem _ hq)

theorem findLoop_mem (sat : Nat) :
    ∀ (rows : List (OutPoint × List Nat)) (sp : SatPoint),
    Index.findLoop sat rows = some sp →
    ∃ bytes, (sp.outpoint, bytes) ∈ rows ∧
      findInRanges sat (decodeRanges bytes) 0 = some sp.offset := by
  intro rows
  induction rows with
  | nil => intro sp h; simp [Index.findLoop] at h
  | cons q rest ih =>
    intro sp h
    obtain ⟨op, bytes⟩ := q
    unfold Index.findLoop at h
    split at h
    · rename_i off hoff
      cases h
      exact ⟨bytes, List.mem_cons_self _ _, hoff⟩
    · obtain ⟨bytes', hmem, hfir⟩ := ih sp h
      exact ⟨bytes', List.mem_cons_of_mem _ hmem, hfir⟩

theorem findInRanges_some_spec (sat : Nat) :
    ∀ (ranges : List (Nat × Nat)) (acc off : Nat),
    findInRanges sat ranges acc = some off →
    ∃ i s e, ranges.get? i = some (s, e) ∧ s ≤ sat ∧ sat < e ∧
      off = acc + ((ranges.take i).map (fun r => r.2 - r.1)).sum + (sat - s) := by
  intro ranges
  induction ranges with
  | nil => intro acc off h; simp [findInRanges] at h
  | cons r rest ih =>
    intro acc off h
    obtain ⟨s, e⟩ := r
    unfold findInRanges at h
    split at h
    · rename_i hc
      injection h with h
      exact ⟨0, s, e, rfl, hc.1, hc.2, by
        simp only [List.take_zero, List.map_nil, List.sum_nil]
        omega⟩
    · rename_i hc
      obtain ⟨i, s', e', hget, hs, he, hoff⟩ := ih (acc + (e - s)) off h
      refine ⟨i + 1, s', e', by simpa using hget, hs, he, ?_⟩
      simp only [List.take_succ_cons, List.map_cons, List.sum_cons]
      omega

/-! ### Claim C6: `Index::find` -/

/-- Some decoded range of this row contains the sat. -/
def RowContains (bytes : List Nat) (sat : Nat) : Prop :=
  ∃ r ∈ decodeRanges bytes, r.1 ≤ sat ∧ sat < r.2

/-- The claim's description of the result: the sat lies in a stored range
at `sp.outpoint`, and the offset is the total length of the ranges stored
before it on the same outpoint plus the sat's distance from the range
start. -/
def FoundAt (idx : IndexState) (sat : Nat) (sp : SatPoint) : Prop :=
  ∃ bytes i s e,
    (sp.outpoint, bytes) ∈ idx.outpoint_to_sat_ranges.rows ∧
    (decodeRanges bytes).get? i = some (s, e) ∧ s ≤ sat ∧ sat < e ∧
    sp.offset = (((decodeRanges bytes).take i).map (fun r => r.2 - r.1)).sum
      + (sat - s)

/-- C6: with the sat index present, `find` returns `None` when the sat's
block is not yet indexed, and otherwise returns `Some ⟨outpoint, offset⟩`
exactly when the sat lies in exactly one stored range (the uniqueness
hypotheses), with the offset equal to the lengths of the ranges before it
at that outpoint plus `sat - start`. -/
theorem find_spec (idx : IndexState) (sat : Nat)
    (hsat : idx.hasSatIndex = true)
    (huniqrow : ∀ p ∈ idx.outpoint_to_sat_ranges.rows,
      ∀ q ∈ idx.outpoint_to_sat_ranges.rows,
      RowContains p.2 sat → RowContains q.2 sat → p = q)
    (huniqidx : ∀ p ∈ idx.outpoint_to_sat_ranges.rows,
      ∀ i < (decodeRanges p.2).length, ∀ j < (decodeRanges p.2).length,
      ∀ s e s' e', (decodeRanges p.2).get? i = some (s, e) →
        (decodeRanges p.2).get? j = some (s', e') →
        s ≤ sat → sat < e → s' ≤ sat → sat < e' → i = j) :
    (idx.block_count ≤ Sat.height sat → Index.find idx sat = Except.ok none) ∧
    (Sat.height sat < idx.block_count →
      ∀ sp, Index.find idx sat = Except.ok (some sp) ↔ FoundAt idx sat sp) := by
  have hreq : Index.require_sat_index idx "find" = Except.ok () := by
    unfold Index.require_sat_index Index.has_sat_index
    rw [hsat]
    rfl
  constructor
  · intro hle
    unfold Index.find
    rw [hreq, if_pos hle]
  · intro hlt sp
    unfold Index.find
    rw [hreq, if_neg (by omega)]
    constructor
    · intro h
      injection h with h
      obtain ⟨bytes, hmem, hfir⟩ := findLoop_mem sat _ sp h
      obtain ⟨i, s, e, hget, hs, he, hoff⟩ := findInRanges_some_spec sat _ 0 _ hfir
      exact ⟨bytes, i, s, e, hmem, hget, hs, he, by omega⟩
    · rintro ⟨bytes, i, s, e, hmem, hget, hs, he, hoff⟩
      have hcon : RowContains bytes sat :=
        ⟨(s, e), List.get?_mem hget, hs, he⟩
      cases hloop : Index.findLoop sat idx.outpoint_to_sat_ranges.rows with
      | none =>
        exfalso
        have := ((findLoop_none_iff sat _).mp hloop) (sp.outpoint, bytes) hmem
        have hnone := (findInRanges_none_iff sat (decodeRanges bytes) 0).mp this
        exact hnone (s, e) (List.get?_mem hget) ⟨hs, he⟩
      | some sp' =>
        obtain ⟨bytes', hmem', hfir'⟩ := findLoop_mem sat _ sp' hloop
        obtain ⟨i', s', e', hget', hs', he', hoff'⟩ :=
          findInRanges_some_spec sat _ 0 _ hfir'
        have hconq : RowContains bytes' sat :=
          ⟨(s', e'), List.get?_mem hget', hs', he'⟩
        have hpq := huniqrow (sp.outpoint, bytes) hmem (sp'.outpoint, bytes') hmem'
          hcon hconq
        injection hpq with hop hbytes
        subst hbytes
        have hlen : i < (decodeRanges bytes).length :=
          (List.get?_eq_some.mp hget).1
        have hlen' : i' < (decodeRanges bytes).length :=
          (List.get?_eq_some.mp hget').1
        have hij := huniqidx (sp.outpoint, bytes) hmem i hlen i' hlen'
          s e s' e' hget hget' hs he hs' he'
        subst hij
        rw [hget] at hget'
        injection hget' with hse
        injection hse with hseq heeq
        subst hseq
        obtain ⟨opx, offx⟩ := sp
        obtain ⟨opy, offy⟩ := sp'
        simp only at hop hoff hoff'
        have hoffeq : offy = offx := by
          rw [hoff, hoff']
          omega
        rw [hop, hoffeq]

/-- Witness for C6: a single outpoint storing ranges `[100,200)` and
`[300,400)`; sat 350 is found at offset `100 + (350 - 300) = 150`, and a
sat from an unindexed block yields `None`. -/
theorem find_spec_witness :
    Sat.height 350 < 1 ∧
    Index.find (IndexState.mk true
      ⟨[(⟨5, 0⟩, SatRange.store (100, 200) ++ SatRange.store (300, 400))]⟩
      ⟨[]⟩ 1 []) 350 = Except.ok (some ⟨⟨5, 0⟩, 150⟩) ∧
    FoundAt (IndexState.mk true
      ⟨[(⟨5, 0⟩, SatRange.store (100, 200) ++ SatRange.store (300, 400))]⟩
      ⟨[]⟩ 1 []) 350 ⟨⟨5, 0⟩, 150⟩ ∧
    1 ≤ Sat.height 5000000000 ∧
    Index.find (IndexState.mk true
      ⟨[(⟨5, 0⟩, SatRange.store (100, 200) ++ SatRange.store (300, 400))]⟩
      ⟨[]⟩ 1 []) 5000000000 = Except.ok none := by
  have hdec : decodeRanges (SatRange.store (100, 200) ++ SatRange.store (300, 400))
      = [(100, 200), (300, 400)] := by decide
  have huniqrow : ∀ p ∈ [((⟨5, 0⟩ : OutPoint),
        SatRange.store (100, 200) ++ SatRange.store (300, 400))],
      ∀ q ∈ [((⟨5, 0⟩ : OutPoint),
        SatRange.store (100, 200) ++ SatRange.store (300, 400))],
      RowContains p.2 350 → RowContains q.2 350 → p = q := by
    intro p hp q hq _ _
    simp only [List.mem_singleton] at hp hq
    rw [hp, hq]
  have huniqidx : ∀ p ∈ [((⟨5, 0⟩ : OutPoint),
        SatRange.store (100, 200) ++ SatRange.store (300, 400))],
      ∀ i < (decodeRanges p.2).length, ∀ j < (decodeRanges p.2).length,
      ∀ s e s' e', (decodeRanges p.2).get? i = some (s, e) →
        (decodeRanges p.2).get? j = some (s', e') →
        s ≤ 350 → 350 < e → s' ≤ 350 → 350 < e' → i = j := by
    intro p hp i hi j hj s e s' e' hget hget' hs he hs' he'
    simp only [List.mem_singleton] at hp
    subst hp
    simp only [hdec] at hget hget' hi hj
    simp only [List.length_cons, List.length_nil] at hi hj
    interval_cases i <;> interval_cases j
    · rfl
    · exfalso
      simp only [List.get?_cons_zero] at hget
      injection hget with h2
      injection h2 with h3 h4
      omega
    · exfalso
      simp only [List.get?_cons_succ, List.get?_cons_zero] at hget'
      injection hget' with h2
      injection h2 with h3 h4
      omega
    · rfl
  have h := find_spec (IndexState.mk true
      ⟨[(⟨5, 0⟩, SatRange.store (100, 200) ++ SatRange.store (300, 400))]⟩
      ⟨[]⟩ 1 []) 350 rfl huniqrow huniqidx
  have hfa : FoundAt (IndexState.mk true
      ⟨[(⟨5, 0⟩, SatRange.store (100, 200) ++ SatRange.store (300, 400))]⟩
      ⟨[]⟩ 1 []) 350 ⟨⟨5, 0⟩, 150⟩ := by
    refine ⟨SatRange.store (100, 200) ++ SatRange.store (300, 400), 1, 300, 400,
      List.mem_singleton.mpr rfl, ?_, by omega, by omega, ?_⟩
    · rw [hdec]
      decide
    · rw [hdec]
      decide
  have h2 := find_spec (IndexState.mk true
      ⟨[(⟨5, 0⟩, SatRange.store (100, 200) ++ SatRange.store (300, 400))]⟩
      ⟨[]⟩ 1 []) 5000000000 rfl
    (by
      intro p hp q hq _ _
      simp only [List.mem_singleton] at hp hq
      rw [hp, hq])
    (by
      intro p hp i hi j hj s e s' e' hget hget' hs he hs' he'
      simp only [List.mem_singleton] at hp
      subst hp
      simp only [hdec] at hget hget' hi hj
      simp only [List.length_cons, List.length_nil] at hi hj
      interval_cases i <;> interval_cases j
      · rfl
      · exfalso
        simp only [List.get?_cons_zero] at hget
        injection hget with hh2
        injection hh2 with hh3 hh4
        omega
      · exfalso
        simp only [List.get?_cons_succ, List.get?_cons_zero] at hget'
        injection hget' with hh2
        injection hh2 with hh3 hh4
        omega
      · rfl)
  exact ⟨by decide, (h.2 (by decide) ⟨⟨5, 0⟩, 150⟩).mpr hfa, hfa, by decide,
    h2.1 (by decide)⟩
